import Mathlib

/-!
Barbra backend: OpenID Connect login flow and user registration.

A shallow embedding of `auth/openIdClient.go` and `models/userAccount.go`.

Conventions of the embedding:

* A Go function returning `(value, error)` becomes a Lean function returning a
  pair `Option value × Option GoError`; `none` stands for Go's `nil`.
* A call into a third-party library whose contract is "a value or an error" is
  a parameter of type `Except LibError value`.
* Side effects that a claim talks about (the verifier being invoked, documents
  being inserted) are made explicit as state that is passed in and returned.
-/

namespace Barbra

/-! ## Go values and errors -/

/-- An error value created by a package other than the repository's own
(`go-oidc`, `oauth2`, `crypto/rand`, `mgo`): the creating package and the
message. -/
structure LibError where
  pkg : String
  msg : String
  deriving DecidableEq, Repr

/-- Go `error` values as this repository sees them: its own sentinels
(`errors.New` values held in package-level variables and compared by identity),
or an error handed on unchanged from a library. A library can never produce one
of the sentinels: Go forbids import cycles, so no imported package can name
them. -/
inductive GoError
  | ErrUnableToFetchOIdToken
  | ErrInvalidPayload
  | ErrEmailAlreadyInUse
  | lib (e : LibError)
  deriving DecidableEq, Repr

/-- The message of an error (`err.Error()`). -/
def GoError.Error : GoError → String
  | .ErrUnableToFetchOIdToken => "unable to fetch openIdToken"
  | .ErrInvalidPayload => "user: invalid payload"
  | .ErrEmailAlreadyInUse => "user: email already in use"
  | .lib e => e.msg

/-- A value of Go type `interface{}`, by dynamic type; a `float64` is kept as
the text it was parsed from. -/
inductive GoValue
  | nil
  | str (s : String)
  | int (i : Int)
  | float (text : String)
  | bool (b : Bool)
  | composite (repr : String)
  deriving DecidableEq, Repr

/-- The type assertion `v.(string)` in its two-result form: the string and
`true` when the dynamic type is `string`, the zero value and `false`
otherwise. -/
def GoValue.assertString : GoValue → String × Bool
  | .str s => (s, true)
  | _ => ("", false)

/-- A function that either returns or panics. -/
inductive Outcome (α : Type)
  | panicked (msg : String)
  | returned (a : α)
  deriving DecidableEq, Repr

/-! ## `fmt.Sprintf` -/

/-- `fmt.Sprintf` on string operands, over the characters of the format: the
verbs `%s` and `%v` print the next operand as it is, `%%` prints a percent sign,
any other verb is a bad verb for a string, and missing or extra operands are
reported in the output the way `fmt` does. Flags and widths are not modelled. -/
def Sprintf.go : List Char → List String → List Char
  | [], [] => []
  | [], a :: args =>
    "%!(EXTRA ".toList
      ++ (", ".intercalate ((a :: args).map (fun x => "string=" ++ x))).toList ++ [')']
  | ['%'], _ => "%!(NOVERB)".toList
  | '%' :: '%' :: fmt, args => '%' :: Sprintf.go fmt args
  | '%' :: v :: fmt, [] => "%!".toList ++ [v] ++ "(MISSING)".toList ++ Sprintf.go fmt []
  | '%' :: v :: fmt, a :: args =>
    if v = 's' ∨ v = 'v' then a.toList ++ Sprintf.go fmt args
    else "%!".toList ++ [v] ++ "(string=".toList ++ a.toList ++ [')'] ++ Sprintf.go fmt args
  | c :: fmt, args => c :: Sprintf.go fmt args

/-- `fmt.Sprintf(format, args...)` for string operands. -/
def Sprintf (format : String) (args : List String) : String :=
  String.mk (Sprintf.go format.toList args)

/-! ## Library types used by `auth/openIdClient.go` -/

/-- `oidc.IDToken`: the verified claims of an identity token. Times are Unix
seconds. -/
structure IDToken where
  Issuer : String
  Audience : List String
  Subject : String
  Expiry : Int
  IssuedAt : Int
  Nonce : String
  deriving DecidableEq, Repr

/-- `oidc.Config`: the verifier configuration; the repository sets only
`ClientID`. -/
structure OidcConfig where
  ClientID : String
  deriving DecidableEq, Repr

/-- `oidc.IDTokenVerifier`: the issuer and configuration it was built with, and
what `Verify` answers for a raw token (signature and claim checks are the
library's). -/
structure IDTokenVerifier where
  issuer : String
  config : OidcConfig
  check : String → Except LibError IDToken

/-- `oidc.Provider`: the issuer found by discovery and, for every verifier
configuration, the verdict of a verifier using the provider's key set. -/
structure Provider where
  issuer : String
  verdict : OidcConfig → String → Except LibError IDToken

/-- `Provider.Verifier(config)`: a verifier bound to the provider's issuer and
keys and to `config`. -/
def Provider.Verifier (p : Provider) (config : OidcConfig) : IDTokenVerifier :=
  { issuer := p.issuer, config := config, check := p.verdict config }

/-- The raw identity tokens handed to `IDTokenVerifier.Verify` so far, oldest
first. -/
abbrev VerifierCalls := List String

/-- `IDTokenVerifier.Verify(ctx, rawIDToken)`: records the call and answers. -/
def IDTokenVerifier.Verify (v : IDTokenVerifier) (rawIDToken : String)
    (calls : VerifierCalls) : Except LibError IDToken × VerifierCalls :=
  (v.check rawIDToken, calls ++ [rawIDToken])

/-- `oauth2.Endpoint`. -/
structure Endpoint where
  AuthURL : String
  TokenURL : String
  deriving DecidableEq, Repr

/-- `oauth2.Config`. -/
structure OAuth2Config where
  ClientID : String
  ClientSecret : String
  Endpoint : Endpoint
  RedirectURL : String
  Scopes : List String
  deriving DecidableEq, Repr

/-- `oauth2.Token`, reduced to what `Extra` answers for each key. -/
structure Token where
  AccessToken : String
  Extra : String → GoValue

/-- The field `raw` of an `oauth2.Token`, by dynamic type: the
`map[string]interface{}` of a JSON token response, the `url.Values` of a
form-encoded token response, or anything else (`nil` for a token that was not
built from a response). -/
inductive TokenRaw
  | object (fields : List (String × GoValue))
  | form (values : List (String × List String))
  | other

/-- `unicode.IsSpace`. -/
def isSpace (c : Char) : Bool :=
  c = '\t' || c = '\n' || c.toNat = 0x0B || c.toNat = 0x0C || c = '\r' || c = ' '
    || c.toNat = 0x85 || c.toNat = 0xA0 || c.toNat = 0x1680
    || (0x2000 ≤ c.toNat && c.toNat ≤ 0x200A)
    || c.toNat = 0x2028 || c.toNat = 0x2029 || c.toNat = 0x202F || c.toNat = 0x205F
    || c.toNat = 0x3000

/-- `strings.TrimSpace`. -/
def TrimSpace (s : List Char) : List Char :=
  ((s.dropWhile isSpace).reverse.dropWhile isSpace).reverse

/-- `strconv.ParseInt(s, 10, 64)`: an optional sign and one or more decimal
digits, within the range of `int64`; `none` is an error. -/
def ParseInt (s : List Char) : Option Int :=
  let digits := match s with
    | '+' :: ds => ds
    | '-' :: ds => ds
    | ds => ds
  if digits = [] ∨ ¬ digits.all (fun c => '0'.toNat ≤ c.toNat ∧ c.toNat ≤ '9'.toNat) then none
  else
    let n : Int := digits.foldl (fun acc c => acc * 10 + (c.toNat - '0'.toNat : Nat)) 0
    let v : Int := if s.head? = some '-' then -n else n
    if -9223372036854775808 ≤ v ∧ v ≤ 9223372036854775807 then some v else none

/-- `url.Values.Get(key)` on the values of a form: the first value of the key,
the empty string when the key has none. -/
def formGet (values : List (String × List String)) (key : String) : String :=
  match values.lookup key with
  | some (v :: _) => v
  | _ => ""

/-- `Token.Extra(key)` as a function of the raw response data. For a JSON
response it is the value under the key, `nil` when the key is absent. For a
form-encoded response it is the value of the key (the empty string when the key
is absent), converted to an integer when it has no dot and parses as one, to a
float when it has one dot and parses as one (`parsesFloat` says for which texts
`strconv.ParseFloat` succeeds), and left a string otherwise. For any other raw
data it is `nil`. -/
def TokenRaw.Extra (parsesFloat : String → Bool) : TokenRaw → String → GoValue
  | .object fields, key =>
    match fields.lookup key with
    | some v => v
    | none => .nil
  | .form values, key =>
    let v := formGet values key
    let s := TrimSpace v.toList
    if s.count '.' = 0 then
      match ParseInt s with
      | some i => .int i
      | none => .str v
    else if s.count '.' = 1 then
      if parsesFloat (String.mk s) then .float (String.mk s) else .str v
    else .str v
  | .other, _ => .nil

/-- `oidc.ScopeOpenID`. -/
def ScopeOpenID : String := "openid"

/-- The configuration object returned by `config.GetConfig()`: `GetString`
answers the empty string for a key that is not set. -/
structure Config where
  GetString : String → String

/-! ## `auth/openIdClient.go` -/

/-- `OpenIdClient`. -/
structure OpenIdClient where
  oidVerifier : IDTokenVerifier
  oidProvider : Provider
  oAuth2Config : OAuth2Config

/-- `getCallbackURL`. -/
def getCallbackURL (host : String) (providerId : String) : String :=
  Sprintf "%s/api/v1/login/%s/callback" [host, providerId]

/-- `LoadOpenIdClient`; `NewProvider` is `oidc.NewProvider` (provider discovery
for an issuer URL). -/
def LoadOpenIdClient (c : Config) (NewProvider : String → Except LibError Provider)
    (providerId : String) : Option OpenIdClient × Option GoError :=
  let cAddr := "auth." ++ providerId
  let oauth2Config : OAuth2Config :=
    { ClientID := c.GetString (cAddr ++ ".key")
      ClientSecret := c.GetString (cAddr ++ ".secret")
      RedirectURL := getCallbackURL (c.GetString "server.host") providerId
      Endpoint :=
        { AuthURL := c.GetString (cAddr ++ ".endpoint.auth_url")
          TokenURL := c.GetString (cAddr ++ ".endpoint.token_url") }
      Scopes := [ScopeOpenID, "email", "profile"] }
  match NewProvider (c.GetString (cAddr ++ ".endpoint.url")) with
  | .error err => (none, some (.lib err))
  | .ok oidProvider =>
    let oidVerifier := oidProvider.Verifier { ClientID := oauth2Config.ClientID }
    (some { oidProvider := oidProvider, oAuth2Config := oauth2Config,
            oidVerifier := oidVerifier }, none)

/-- `OpenIdClient.FetchOIdToken` on a token that is not the nil pointer, with
the verifier's call record passed through. -/
def FetchOIdToken (client : OpenIdClient) (oauth2Token : Token) (calls : VerifierCalls) :
    (Option IDToken × Option GoError) × VerifierCalls :=
  let (rawOIdToken, ok) := (oauth2Token.Extra "id_token").assertString
  if !ok then
    ((none, some .ErrUnableToFetchOIdToken), calls)
  else
    match client.oidVerifier.Verify rawOIdToken calls with
    | (.ok token, calls') => ((some token, none), calls')
    | (.error err, calls') => ((none, some (.lib err)), calls')

/-- `OpenIdClient.GetAccountSub`. -/
def GetAccountSub (_client : OpenIdClient) (token : IDToken) : String :=
  token.Subject

/-! ## `encoding/base64` -/

/-- A Go `byte`. -/
abbrev Byte := Fin 256

/-- The conversion `byte(x)` of an unsigned integer: the low eight bits. -/
def toByte (x : Nat) : Byte := ⟨x % 256, Nat.mod_lt x (by decide)⟩

/-- `base64.Encoding`: the 64-character alphabet and the padding character
(`none` is `NoPadding`). The decode map is derived from the alphabet. -/
structure Encoding where
  encode : List Char
  padChar : Option Char

/-- The constant `encodeURL`. -/
def encodeURL : String := "ABCDEFGHIJKLMNOPQRSTUVWXYZabcdefghijklmnopqrstuvwxyz0123456789-_"

/-- `base64.URLEncoding`: the URL-safe alphabet with `=` padding. -/
def URLEncoding : Encoding := { encode := encodeURL.toList, padChar := some '=' }

/-- `enc.encode[i]`. -/
def Encoding.encodeAt (enc : Encoding) (i : Nat) : Char := enc.encode.getD i 'A'

/-- `enc.decodeMap[c]`: the position of `c` in the alphabet, `none` (`0xFF` in
Go) for a character outside of it. -/
def Encoding.decodeMap (enc : Encoding) (c : Char) : Option Nat :=
  if c ∈ enc.encode then some (enc.encode.indexOf c) else none

/-- `Encoding.Encode`: three source bytes become four characters; a final group
of one or two bytes becomes two or three characters and the padding. -/
def Encoding.encodeList (enc : Encoding) : List Byte → List Char
  | [] => []
  | b0 :: b1 :: b2 :: rest =>
    let val := b0.val <<< 16 ||| b1.val <<< 8 ||| b2.val
    enc.encodeAt (val >>> 18 &&& 0x3F) :: enc.encodeAt (val >>> 12 &&& 0x3F)
      :: enc.encodeAt (val >>> 6 &&& 0x3F) :: enc.encodeAt (val &&& 0x3F)
      :: enc.encodeList rest
  | [b0, b1] =>
    let val := b0.val <<< 16 ||| b1.val <<< 8
    enc.encodeAt (val >>> 18 &&& 0x3F) :: enc.encodeAt (val >>> 12 &&& 0x3F)
      :: enc.encodeAt (val >>> 6 &&& 0x3F) :: enc.padChar.toList
  | [b0] =>
    let val := b0.val <<< 16
    enc.encodeAt (val >>> 18 &&& 0x3F) :: enc.encodeAt (val >>> 12 &&& 0x3F)
      :: (enc.padChar.toList ++ enc.padChar.toList)

/-- `Encoding.EncodeToString`. -/
def Encoding.EncodeToString (enc : Encoding) (src : List Byte) : String :=
  String.mk (enc.encodeList src)

/-- The value assembled from the four 6-bit digits of a quantum. -/
def quantumValue (d0 d1 d2 d3 : Nat) : Nat :=
  d0 <<< 18 ||| d1 <<< 12 ||| d2 <<< 6 ||| d3

/-- `Encoding.Decode` on input without line breaks, quantum by quantum: four
alphabet characters give three bytes; a final quantum may end in padding (one
or two padding characters, after which nothing may follow) or, without padding,
be two or three characters long. `none` is `CorruptInputError`. -/
def Encoding.decodeList (enc : Encoding) : List Char → Option (List Byte)
  | [] => some []
  | c0 :: c1 :: c2 :: c3 :: rest =>
    if enc.padChar = some c3 then
      if rest ≠ [] then none
      else if enc.padChar = some c2 then
        match enc.decodeMap c0, enc.decodeMap c1 with
        | some d0, some d1 => some [toByte (quantumValue d0 d1 0 0 >>> 16)]
        | _, _ => none
      else
        match enc.decodeMap c0, enc.decodeMap c1, enc.decodeMap c2 with
        | some d0, some d1, some d2 =>
          let val := quantumValue d0 d1 d2 0
          some [toByte (val >>> 16), toByte (val >>> 8)]
        | _, _, _ => none
    else
      match enc.decodeMap c0, enc.decodeMap c1, enc.decodeMap c2, enc.decodeMap c3 with
      | some d0, some d1, some d2, some d3 =>
        let val := quantumValue d0 d1 d2 d3
        (enc.decodeList rest).map
          (fun tl => toByte (val >>> 16) :: toByte (val >>> 8) :: toByte val :: tl)
      | _, _, _, _ => none
  | [c0, c1, c2] =>
    if enc.padChar = none then
      match enc.decodeMap c0, enc.decodeMap c1, enc.decodeMap c2 with
      | some d0, some d1, some d2 =>
        let val := quantumValue d0 d1 d2 0
        some [toByte (val >>> 16), toByte (val >>> 8)]
      | _, _, _ => none
    else none
  | [c0, c1] =>
    if enc.padChar = none then
      match enc.decodeMap c0, enc.decodeMap c1 with
      | some d0, some d1 => some [toByte (quantumValue d0 d1 0 0 >>> 16)]
      | _, _ => none
    else none
  | [_] => none

/-- `Encoding.DecodeString`: carriage returns and line feeds in the input are
skipped, the rest is decoded. -/
def Encoding.DecodeString (enc : Encoding) (s : String) : Option (List Byte) :=
  enc.decodeList (s.toList.filter (fun c => c ≠ '\r' ∧ c ≠ '\n'))

/-! ## `GenerateToken` -/

/-- The source behind `crypto/rand.Read`: asked for `n` bytes it supplies some
bytes and possibly an error. -/
structure RandReader where
  supply : Nat → List Byte × Option LibError

/-- `make([]byte, length)`: a zeroed slice, or a run-time panic for a negative
length. -/
def makeBytes (length : Int) : Outcome (List Byte) :=
  if length < 0 then .panicked "runtime error: makeslice: len out of range"
  else .returned (List.replicate length.toNat 0)

/-- `rand.Read(b)`: the supplied bytes overwrite the front of `b`; the results
are the buffer afterwards, the number of bytes written and the error. -/
def RandReader.Read (r : RandReader) (b : List Byte) : List Byte × Nat × Option LibError :=
  let (bytes, err) := r.supply b.length
  let written := bytes.take b.length
  (written ++ b.drop written.length, written.length, err)

/-- `GenerateToken`. -/
def GenerateToken (rand : RandReader) (length : Int) : Outcome (String × Option GoError) :=
  match makeBytes length with
  | .panicked msg => .panicked msg
  | .returned b =>
    let (b, _, libErr) := rand.Read b
    let err : Option GoError := libErr.map .lib
    if err ≠ none then
      .returned ("", err)
    else
      .returned (URLEncoding.EncodeToString b, err)

/-! ## `models/userAccount.go` -/

/-- A BSON value, as far as the `users` collection holds them. -/
inductive Bson
  | str (s : String)
  | bool (b : Bool)
  | arr (items : List Bson)
  | doc (fields : List (String × Bson))

/-- A BSON document: its fields in order. -/
abbrev BsonDoc := List (String × Bson)

/-- The field of a document under a key. -/
def BsonDoc.field (d : BsonDoc) (key : String) : Option Bson :=
  (d.find? (fun kv => kv.1 == key)).map (fun kv => kv.2)

/-- The value a dotted path of a query reaches in a document: each component
but the last descends into an embedded document. -/
def BsonDoc.atPath (d : BsonDoc) : List String → Option Bson
  | [] => none
  | [key] => d.field key
  | key :: more =>
    match d.field key with
    | some (.doc inner) => BsonDoc.atPath inner more
    | _ => none

/-- The components of a dotted path. -/
def splitPath : List Char → List String
  | [] => [""]
  | c :: cs =>
    if c = '.' then "" :: splitPath cs
    else
      match splitPath cs with
      | [] => [String.mk [c]]
      | first :: more => String.mk (c :: first.toList) :: more

/-- Whether a value satisfies the equality condition of a query on a string: it
is that string, or an array with that string among its items. -/
def Bson.equalsString : Bson → String → Bool
  | .str s, v => s == v
  | .arr items, v => items.any (fun item => match item with
      | .str s => s == v
      | _ => false)
  | _, _ => false

/-- Whether a document matches the query `bson.M{key: v}` for a string `v`. -/
def BsonDoc.matchesM (d : BsonDoc) (key : String) (v : String) : Bool :=
  match d.atPath (splitPath key.toList) with
  | some value => value.equalsString v
  | none => false

/-- Modelled from the spec: `payloads.ProfilePayload`, a type of another package
of the repository (the spec's ProfileClaims: email, given name, family name,
nickname, picture URL); these are the fields `RegisterUser` reads. -/
structure ProfilePayload where
  Email : String
  FamilyName : String
  GivenName : String
  Nickname : String
  PictureURL : String
  deriving DecidableEq, Repr

/-- Modelled from the spec: `UserProfile`, declared in another file of the
package, with the fields of the spec's ProfileClaims; these are the fields
`RegisterUser` sets. -/
structure UserProfile where
  Email : String
  FamilyName : String
  GivenName : String
  Nickname : String
  PictureURL : String
  deriving DecidableEq, Repr

/-- `UserAccount`; `Bookmarks` is kept as the list of its keys. -/
structure UserAccount where
  Id : String
  Enrolled : Bool
  Profile : UserProfile
  Bookmarks : List String
  deriving DecidableEq, Repr

/-- What `models/userAccount.go` takes from outside the file: the validator
(`helpers.GetValidator()`) on payloads and on accounts, the BSON fields that a
`UserProfile` and the bookmarks marshal to (their struct tags are declared
elsewhere), and the identifiers `bson.NewObjectId().Hex()` hands out, by call
number. -/
structure ModelsEnv where
  validatePayload : ProfilePayload → Option LibError
  validateAccount : UserAccount → Option LibError
  marshalProfile : UserProfile → BsonDoc
  marshalBookmarks : List String → BsonDoc
  objectIdHex : Nat → String

/-- The database as `models/userAccount.go` sees it: the documents of the
`users` collection, an error that every operation fails with while the server
cannot be reached, and the number of object ids handed out. -/
structure Database where
  users : List BsonDoc
  unreachable : Option LibError
  idsIssued : Nat

/-- The document `mgo` stores for a `UserAccount`, by the `bson` tags of the
struct: `_id`, `enrolled`, `profile`, `bookmarks`. -/
def UserAccount.marshal (env : ModelsEnv) (account : UserAccount) : BsonDoc :=
  [("_id", .str account.Id), ("enrolled", .bool account.Enrolled),
   ("profile", .doc (env.marshalProfile account.Profile)),
   ("bookmarks", .doc (env.marshalBookmarks account.Bookmarks))]

/-- `collection.Find(bson.M{key: v}).Count()`. -/
def Database.FindCount (db : Database) (key : String) (v : String) : Nat × Option LibError :=
  match db.unreachable with
  | some err => (0, some err)
  | none => ((db.users.filter (fun d => d.matchesM key v)).length, none)

/-- `collection.Insert(doc)`: fails while the server cannot be reached and for
an `_id` that the collection already holds; otherwise the document is added. -/
def Database.Insert (db : Database) (d : BsonDoc) : Option LibError × Database :=
  match db.unreachable with
  | some err => (some err, db)
  | none =>
    match d.field "_id" with
    | some (.str id) =>
      if db.users.any (fun old => old.matchesM "_id" id) then
        (some { pkg := "mgo", msg := "E11000 duplicate key error" }, db)
      else (none, { db with users := db.users ++ [d] })
    | _ => (none, { db with users := db.users ++ [d] })

/-- `UserAccount.IsEnrolled`. -/
def UserAccount.IsEnrolled (env : ModelsEnv) (account : UserAccount) : Bool :=
  let err := env.validateAccount account
  err == none

/-- `UserAccount.Save`. -/
def UserAccount.Save (env : ModelsEnv) (account : UserAccount) (db : Database) :
    Option GoError × Database :=
  let (err, db') := db.Insert (account.marshal env)
  (err.map .lib, db')

/-- `RegisterUser`; the log line written for an invalid payload is left out. -/
def RegisterUser (env : ModelsEnv) (payload : ProfilePayload) (db : Database) :
    (Option UserAccount × Option GoError) × Database :=
  -- Check if payload is valid
  if (env.validatePayload payload).isSome then
    ((none, some .ErrInvalidPayload), db)
  else
    -- Check if email is already in use
    let emailCheck : Option GoError :=
      if payload.Email ≠ "" then
        let (count, err) := db.FindCount "email" payload.Email
        if err ≠ none ∨ count > 0 then some .ErrEmailAlreadyInUse else none
      else none
    match emailCheck with
    | some e => ((none, some e), db)
    | none =>
      let db1 := { db with idsIssued := db.idsIssued + 1 }
      let account : UserAccount :=
        { Id := env.objectIdHex db.idsIssued
          Enrolled := false
          Profile :=
            { Email := payload.Email
              FamilyName := payload.FamilyName
              GivenName := payload.GivenName
              Nickname := payload.Nickname
              PictureURL := payload.PictureURL }
          Bookmarks := [] }
      let account := { account with Enrolled := account.IsEnrolled env }
      let (err, db2) := account.Save env db1
      ((some account, err), db2)

/-! ## `net/url`: query escaping and parsing

Go strings are byte sequences; a Lean `String` stands for the Go string of its
UTF-8 bytes. Escaping works on those bytes and yields ASCII text; unescaping
yields bytes. -/

/-- The character of an ASCII byte. -/
def byteChar (b : Byte) : Char := Char.ofNat b.val

/-- The bytes of a character in a Go string. -/
def charBytes (c : Char) : List Byte := (String.utf8EncodeChar c).map (fun u => u.val)

/-- The bytes of a Go string. -/
def utf8 (s : String) : List Byte := s.toList.flatMap charBytes

/-- `shouldEscape(c, encodeQueryComponent)`: everything is escaped but letters,
digits and the marks `-`, `_`, `.`, `~`. -/
def shouldEscape (c : Byte) : Bool :=
  if ('a'.toNat ≤ c.val ∧ c.val ≤ 'z'.toNat) ∨ ('A'.toNat ≤ c.val ∧ c.val ≤ 'Z'.toNat)
      ∨ ('0'.toNat ≤ c.val ∧ c.val ≤ '9'.toNat) then false
  else if c.val = '-'.toNat ∨ c.val = '_'.toNat ∨ c.val = '.'.toNat ∨ c.val = '~'.toNat then false
  else true

/-- The constant `upperhex`. -/
def upperhex : List Char := "0123456789ABCDEF".toList

/-- One byte under `escape(s, encodeQueryComponent)`: a space becomes `+`, a
byte to escape becomes `%` and two upper-case hex digits, any other byte stays. -/
def escapeByte (c : Byte) : List Char :=
  if c.val = ' '.toNat then ['+']
  else if shouldEscape c then ['%', upperhex.getD (c.val >>> 4) '0', upperhex.getD (c.val &&& 15) '0']
  else [byteChar c]

/-- `escape(s, encodeQueryComponent)` on the bytes of `s`. -/
def escapeBytes (s : List Byte) : List Char := s.flatMap escapeByte

/-- `url.QueryEscape`. -/
def QueryEscape (s : String) : String := String.mk (escapeBytes (utf8 s))

/-- `ishex`. -/
def ishex (c : Char) : Bool :=
  ('0'.toNat ≤ c.toNat ∧ c.toNat ≤ '9'.toNat) ∨ ('a'.toNat ≤ c.toNat ∧ c.toNat ≤ 'f'.toNat)
    ∨ ('A'.toNat ≤ c.toNat ∧ c.toNat ≤ 'F'.toNat)

/-- `unhex`. -/
def unhex (c : Char) : Nat :=
  if '0'.toNat ≤ c.toNat ∧ c.toNat ≤ '9'.toNat then c.toNat - '0'.toNat
  else if 'a'.toNat ≤ c.toNat ∧ c.toNat ≤ 'f'.toNat then c.toNat - 'a'.toNat + 10
  else if 'A'.toNat ≤ c.toNat ∧ c.toNat ≤ 'F'.toNat then c.toNat - 'A'.toNat + 10
  else 0

/-- `unescape(s, encodeQueryComponent)`: `%` and two hex digits give a byte,
`+` gives a space, any other character gives its own bytes; `none` is the
`EscapeError` for a `%` that two hex digits do not follow. -/
def unescapeList : List Char → Option (List Byte)
  | [] => some []
  | c :: rest =>
    if c = '%' then
      match rest with
      | h1 :: h2 :: rest' =>
        if ishex h1 ∧ ishex h2 then
          (unescapeList rest').map (fun tl => toByte (unhex h1 <<< 4 ||| unhex h2) :: tl)
        else none
      | _ => none
    else if c = '+' then (unescapeList rest).map (fun tl => toByte ' '.toNat :: tl)
    else (unescapeList rest).map (fun tl => charBytes c ++ tl)

/-- `url.QueryUnescape`. -/
def QueryUnescape (s : String) : Option (List Byte) := unescapeList s.toList

/-- `strings.Cut(s, sep)` for a one-character separator: the text before the
first separator and the text after it; without a separator, all of `s` and the
empty text. -/
def cutAt (sep : Char) : List Char → List Char × List Char
  | [] => ([], [])
  | c :: cs =>
    if c = sep then ([], cs)
    else ((c :: (cutAt sep cs).1), (cutAt sep cs).2)

/-- The pieces of a query between `&` separators, in order. -/
def splitAmp : List Char → List (List Char)
  | [] => [[]]
  | c :: cs =>
    if c = '&' then [] :: splitAmp cs
    else
      match splitAmp cs with
      | [] => [[c]]
      | s :: ss => (c :: s) :: ss

/-- The values parsed from a query: key and value bytes, in order of
appearance. -/
abbrev ParsedValues := List (List Byte × List Byte)

/-- The loop of `parseQuery` over the `&`-separated pieces: a piece with a
semicolon sets the error, an empty piece is skipped, a piece that does not
unescape sets the error unless one is set, any other piece adds its key and
value. -/
def parseQueryLoop : List (List Char) → ParsedValues → Option LibError →
    ParsedValues × Option LibError
  | [], m, err => (m, err)
  | key :: query, m, err =>
    if ';' ∈ key then
      parseQueryLoop query m (some { pkg := "net/url", msg := "invalid semicolon separator in query" })
    else if key = [] then parseQueryLoop query m err
    else
      let (k, value) := cutAt '=' key
      match unescapeList k with
      | none =>
        parseQueryLoop query m
          (if err = none then some { pkg := "net/url", msg := "invalid URL escape" } else err)
      | some k1 =>
        match unescapeList value with
        | none =>
          parseQueryLoop query m
            (if err = none then some { pkg := "net/url", msg := "invalid URL escape" } else err)
        | some v1 => parseQueryLoop query (m ++ [(k1, v1)]) err

/-- `url.ParseQuery`. -/
def ParseQuery (query : String) : ParsedValues × Option LibError :=
  parseQueryLoop (splitAmp query.toList) [] none

/-- `Values.Get(key)` on parsed values: the first value of the key, the empty
string when there is none. -/
def ParsedValues.Get (m : ParsedValues) (key : String) : List Byte :=
  match m.find? (fun kv => kv.1 = utf8 key) with
  | some kv => kv.2
  | none => []

/-- Whether parsed values have the key at all. -/
def ParsedValues.Has (m : ParsedValues) (key : String) : Bool :=
  m.any (fun kv => kv.1 = utf8 key)

/-- `url.Values` while it is built: the keys, each once, with their values. -/
abbrev Values := List (String × List String)

/-- `Values.Set(key, value)`. -/
def Values.Set (v : Values) (key value : String) : Values :=
  if v.any (fun kv => kv.1 = key) then
    v.map (fun kv => if kv.1 = key then (key, [value]) else kv)
  else v ++ [(key, [value])]

/-- The order of `sort.Strings`, on the characters of two strings. -/
def stringLess : List Char → List Char → Bool
  | [], [] => false
  | [], _ :: _ => true
  | _ :: _, [] => false
  | a :: as, b :: bs =>
    if a.toNat < b.toNat then true
    else if b.toNat < a.toNat then false
    else stringLess as bs

/-- Insertion of a key with its values into a list sorted by key. -/
def insertKey (kv : String × List String) : Values → Values
  | [] => [kv]
  | x :: xs =>
    if stringLess kv.1.toList x.1.toList then kv :: x :: xs
    else x :: insertKey kv xs

/-- The keys in sorted order, with their values. -/
def sortKeys (v : Values) : Values := v.foldr insertKey []

/-- The text `Values.Encode` writes for key-value pairs: `key=value` with both
escaped, and `&` before every pair but the first. -/
def encodePairs : List (String × String) → List Char
  | [] => []
  | [(k, x)] => (QueryEscape k).toList ++ '=' :: (QueryEscape x).toList
  | (k, x) :: rest =>
    (QueryEscape k).toList ++ '=' :: (QueryEscape x).toList ++ '&' :: encodePairs rest

/-- `Values.Encode`: the pairs by sorted key. -/
def Values.Encode (v : Values) : String :=
  String.mk (encodePairs ((sortKeys v).flatMap (fun kv => kv.2.map (fun x => (kv.1, x)))))

/-! ## `net/url`: parsing a URL -/

/-- What `url.Parse` reads from the text between scheme and query: `URL.Opaque`
(here `Rootless`), the user information, host, path and raw path, and
`OmitHost`. -/
structure HierPart where
  Rootless : String
  User : String
  Host : String
  Path : String
  RawPath : String
  OmitHost : Bool
  deriving DecidableEq, Repr

/-- `url.URL`, with the fields of `HierPart` kept together and the fragment as
the bytes it unescapes to. -/
structure URL where
  Scheme : String
  Hier : HierPart
  ForceQuery : Bool
  RawQuery : String
  Fragment : List Byte
  deriving DecidableEq, Repr

/-- The last part of `parse` in `net/url`, which sees only the lower-cased
scheme and the text between scheme and query: it rejects a relative reference
whose first path segment has a colon, reads and validates authority (user
information, host, port) and path, and answers the fields of `HierPart` or an
error. It is taken from the library as it is; `star` records that it accepts
the text of a lone asterisk without scheme. -/
structure URLLib where
  parseRest : String → String → Except LibError HierPart
  star : ∃ hier, parseRest "" "*" = .ok hier

/-- `stringContainsCTLByte`: a byte below the space or the byte `0x7f`. -/
def stringContainsCTLByte (s : List Char) : Bool :=
  s.any (fun c => c.toNat < 0x20 ∨ c.toNat = 0x7f)

/-- The loop of `getScheme` at the characters still to read, after the
characters `seen`: letters go on, digits and `+`, `-`, `.` go on unless they
come first, a colon ends the scheme (and is an error when it comes first), any
other character means there is no scheme. -/
def getSchemeFrom (rawURL : List Char) : List Char → List Char →
    Except LibError (List Char × List Char)
  | _, [] => .ok ([], rawURL)
  | seen, c :: cs =>
    if c.isAlpha then getSchemeFrom rawURL (seen ++ [c]) cs
    else if c.isDigit ∨ c = '+' ∨ c = '-' ∨ c = '.' then
      if seen = [] then .ok ([], rawURL) else getSchemeFrom rawURL (seen ++ [c]) cs
    else if c = ':' then
      if seen = [] then .error { pkg := "net/url", msg := "missing protocol scheme" }
      else .ok (seen, cs)
    else .ok ([], rawURL)

/-- `getScheme(rawURL)`: the scheme and what follows its colon, or no scheme
and all of `rawURL`. -/
def getScheme (rawURL : List Char) : Except LibError (List Char × List Char) :=
  getSchemeFrom rawURL [] rawURL

/-- The query cut of `parse`: a single `?` at the very end sets `ForceQuery`
and is dropped; otherwise the text is cut at the first `?`. The results are the
text before the query, `ForceQuery` and `RawQuery`. -/
def cutQuery (rest : List Char) : List Char × Bool × List Char :=
  if rest.getLast? = some '?' ∧ rest.count '?' = 1 then (rest.dropLast, true, [])
  else ((cutAt '?' rest).1, false, (cutAt '?' rest).2)

/-- `parse(rawURL, false)`: control characters are refused, a lone asterisk is
a path, then come the scheme, the query cut and the rest. -/
def parse (lib : URLLib) (rawURL : List Char) : Except LibError URL :=
  if stringContainsCTLByte rawURL then
    .error { pkg := "net/url", msg := "net/url: invalid control character in URL" }
  else if rawURL = ['*'] then
    .ok { Scheme := ""
          Hier := { Rootless := "", User := "", Host := "", Path := "*", RawPath := "",
                    OmitHost := false }
          ForceQuery := false, RawQuery := "", Fragment := [] }
  else
    match getScheme rawURL with
    | .error err => .error err
    | .ok (scheme, rest) =>
      match lib.parseRest (String.mk (scheme.map Char.toLower)) (String.mk (cutQuery rest).1) with
      | .error err => .error err
      | .ok hier =>
        .ok { Scheme := String.mk (scheme.map Char.toLower), Hier := hier
              ForceQuery := (cutQuery rest).2.1, RawQuery := String.mk (cutQuery rest).2.2
              Fragment := [] }

/-- `unescape(s, encodeFragment)`: as for a query component, but `+` stays. -/
def unescapeFragment : List Char → Option (List Byte)
  | [] => some []
  | c :: rest =>
    if c = '%' then
      match rest with
      | h1 :: h2 :: rest' =>
        if ishex h1 ∧ ishex h2 then
          (unescapeFragment rest').map (fun tl => toByte (unhex h1 <<< 4 ||| unhex h2) :: tl)
        else none
      | _ => none
    else (unescapeFragment rest).map (fun tl => charBytes c ++ tl)

/-- `url.Parse` on the characters of the URL: the fragment is cut off at the
first `#`, the rest is parsed, and a fragment that is not empty is unescaped
(`setFragment`). The `*url.Error` wrapped around an error is not kept. -/
def ParseList (lib : URLLib) (rawURL : List Char) : Except LibError URL :=
  match parse lib (cutAt '#' rawURL).1 with
  | .error err => .error err
  | .ok url =>
    if (cutAt '#' rawURL).2 = [] then .ok url
    else
      match unescapeFragment (cutAt '#' rawURL).2 with
      | none => .error { pkg := "net/url", msg := "invalid URL escape" }
      | some frag => .ok { url with Fragment := frag }

/-- `url.Parse`. -/
def Parse (lib : URLLib) (rawURL : String) : Except LibError URL :=
  ParseList lib rawURL.toList

/-- `URL.Query().Get(key)`: the first value of the key in the raw query, parse
errors of the query ignored. -/
def URL.QueryGet (u : URL) (key : String) : List Byte :=
  (ParseQuery u.RawQuery).1.Get key

/-! ## `oauth2.Config.AuthCodeURL` and `GenerateLoginURL` -/

/-- `Config.AuthCodeURL(state)` without further options. -/
def OAuth2Config.AuthCodeURL (c : OAuth2Config) (state : String) : String :=
  let v : Values := [("response_type", ["code"]), ("client_id", [c.ClientID])]
  let v := if c.RedirectURL ≠ "" then v.Set "redirect_uri" c.RedirectURL else v
  let v := if c.Scopes.length > 0 then v.Set "scope" (" ".intercalate c.Scopes) else v
  let v := if state ≠ "" then v.Set "state" state else v
  let sep := if '?' ∈ c.Endpoint.AuthURL.toList then "&" else "?"
  c.Endpoint.AuthURL ++ sep ++ v.Encode

/-- `OpenIdClient.GenerateLoginURL`. -/
def GenerateLoginURL (client : OpenIdClient) (state : String) : String :=
  client.oAuth2Config.AuthCodeURL state

/-- The characters `Values.Encode` can write: letters, digits, the marks
`-`, `_`, `.`, `~`, and `%`, `+`, `=`, `&`. -/
def queryChar (c : Char) : Bool :=
  c.isAlphanum || c = '-' || c = '_' || c = '.' || c = '~' || c = '%' || c = '+' || c = '='
    || c = '&'

/-- The characters escaping can write: those of `queryChar` but `=` and `&`. -/
def escapedChar (c : Char) : Bool :=
  c.isAlphanum || c = '-' || c = '_' || c = '.' || c = '~' || c = '%' || c = '+'

/-- The key-value pairs of the authorization request in the order
`AuthCodeURL` writes them. -/
def authPairs (c : OAuth2Config) (state : String) : List (String × String) :=
  [("client_id", c.ClientID)]
    ++ (if c.RedirectURL ≠ "" then [("redirect_uri", c.RedirectURL)] else [])
    ++ [("response_type", "code")]
    ++ (if c.Scopes.length > 0 then [("scope", " ".intercalate c.Scopes)] else [])
    ++ (if state ≠ "" then [("state", state)] else [])

/-- The separator `AuthCodeURL` writes after the authorization endpoint. -/
def authSeparator (c : OAuth2Config) : String :=
  if '?' ∈ c.Endpoint.AuthURL.toList then "&" else "?"

/-- The names of the parameters `AuthCodeURL` writes. -/
def authKeys : List String := ["state", "response_type", "client_id", "redirect_uri", "scope"]

/-! ## Concrete inputs used by the witnesses and counterexamples -/

/-- An identity token as a verifier returns it for a JWT that carries no `sub`
claim: `go-oidc` checks signature, issuer, audience and expiry, not the
subject. -/
def tokenWithoutSub : IDToken :=
  { Issuer := "https://idp.example", Audience := ["client-1"], Subject := "",
    Expiry := 2000000000, IssuedAt := 1500000000, Nonce := "" }

/-- An identity token with subject `abc123`. -/
def tokenAbc : IDToken :=
  { Issuer := "https://idp.example", Audience := ["client-1"], Subject := "abc123",
    Expiry := 2000000000, IssuedAt := 1500000000, Nonce := "" }

/-- A provider whose verifiers accept the raw token `good.jwt` (subject
`abc123`) and `nosub.jwt` (no subject) and reject every other raw token. -/
def exampleProvider : Provider :=
  { issuer := "https://idp.example"
    verdict := fun _ raw =>
      if raw = "good.jwt" then .ok tokenAbc
      else if raw = "nosub.jwt" then .ok tokenWithoutSub
      else .error { pkg := "oidc", msg := "oidc: malformed jwt" } }

/-- Discovery that succeeds for `https://idp.example` only. -/
def exampleNewProvider (issuer : String) : Except LibError Provider :=
  if issuer = "https://idp.example" then .ok exampleProvider
  else .error { pkg := "oidc", msg := "Get " ++ issuer ++ "/.well-known/openid-configuration" }

/-- A complete configuration for the provider id `google`. -/
def exampleConfig : Config :=
  { GetString := fun key =>
      if key = "server.host" then "https://example.com"
      else if key = "auth.google.key" then "client-1"
      else if key = "auth.google.secret" then "s3cret"
      else if key = "auth.google.endpoint.auth_url" then "https://idp.example/auth"
      else if key = "auth.google.endpoint.token_url" then "https://idp.example/token"
      else if key = "auth.google.endpoint.url" then "https://idp.example"
      else "" }

/-- A configuration for `google` in which client id and client secret are not
set; the issuer URL is. -/
def configWithoutKey : Config :=
  { GetString := fun key =>
      if key = "server.host" then "https://example.com"
      else if key = "auth.google.endpoint.url" then "https://idp.example"
      else "" }

/-- The client of `exampleConfig`. -/
def exampleClient : OpenIdClient :=
  { oidProvider := exampleProvider
    oidVerifier := exampleProvider.Verifier { ClientID := "client-1" }
    oAuth2Config :=
      { ClientID := "client-1", ClientSecret := "s3cret"
        RedirectURL := "https://example.com/api/v1/login/google/callback"
        Endpoint := { AuthURL := "https://idp.example/auth", TokenURL := "https://idp.example/token" }
        Scopes := ["openid", "email", "profile"] } }

/-- An OAuth2 token whose `id_token` extra field is the given value. -/
def tokenWithExtra (v : GoValue) : Token :=
  { AccessToken := "at", Extra := fun key => if key = "id_token" then v else .nil }

/-- A random source that supplies the bytes `0, 1, 2, ...`. -/
def randCounting : RandReader :=
  { supply := fun n => ((List.range n).map toByte, none) }

/-- A random source that fails after three bytes. -/
def randFailing : RandReader :=
  { supply := fun _ => ([7, 7, 7], some { pkg := "crypto/rand", msg := "unexpected EOF" }) }

/-- An environment for `models/userAccount.go`: a validator that asks a payload
for an email containing `@` and an account for a nickname, the profile
marshalled under lower-case keys, and object ids counting up. -/
def exampleModelsEnv : ModelsEnv :=
  { validatePayload := fun p =>
      if '@' ∈ p.Email.toList then none
      else some { pkg := "validator", msg := "Email: failed on the email tag" }
    validateAccount := fun a =>
      if a.Profile.Nickname ≠ "" then none
      else some { pkg := "validator", msg := "Nickname: failed on the required tag" }
    marshalProfile := fun p =>
      [("email", .str p.Email), ("family_name", .str p.FamilyName),
       ("given_name", .str p.GivenName), ("nickname", .str p.Nickname),
       ("picture", .str p.PictureURL)]
    marshalBookmarks := fun _ => []
    objectIdHex := fun n => "5b1e6f0a9d3c2a0001" ++ String.mk (Nat.toDigits 16 (1048576 + n)) }

/-- A valid payload with the email `ada@example.com`. -/
def payloadAda : ProfilePayload :=
  { Email := "ada@example.com", FamilyName := "Lovelace", GivenName := "Ada",
    Nickname := "ada", PictureURL := "" }

/-- An empty, reachable database. -/
def emptyDatabase : Database := { users := [], unreachable := none, idsIssued := 0 }

/-- The database after `RegisterUser` has stored `payloadAda` once. -/
def databaseWithAda : Database := (RegisterUser exampleModelsEnv payloadAda emptyDatabase).2

/-- The rest of `url.Parse` at the texts the examples need: the authority
`idp.example` with the path `/auth`, and the lone asterisk; everything else is
left unanswered. -/
def exampleURLLib : URLLib :=
  { parseRest := fun scheme rest =>
      if scheme = "https" ∧ rest = "//idp.example/auth" then
        .ok { Rootless := "", User := "", Host := "idp.example", Path := "/auth", RawPath := "",
              OmitHost := false }
      else if scheme = "" ∧ rest = "*" then
        .ok { Rootless := "", User := "", Host := "", Path := "*", RawPath := "*",
              OmitHost := false }
      else .error { pkg := "example", msg := "not among the examples" }
    star := ⟨_, rfl⟩ }

/-- The client `exampleClient` with another authorization endpoint. -/
def clientWithEndpoint (authURL : String) : OpenIdClient :=
  { exampleClient with
    oAuth2Config := { exampleClient.oAuth2Config with
      Endpoint := { AuthURL := authURL, TokenURL := "https://idp.example/token" } } }


/-! ## Callback URL -/

theorem Sprintf_callback (host providerId : String) :
    Sprintf "%s/api/v1/login/%s/callback" [host, providerId]
      = host ++ "/api/v1/login/" ++ providerId ++ "/callback" := by
  apply String.ext
  simp [Sprintf, Sprintf.go]

/-- C4 : for every host and provider id, `getCallbackURL` is the host, then
`/api/v1/login/`, then the provider id, then `/callback`, with both inputs
unchanged; for `https://example.com` and `google` it is
`https://example.com/api/v1/login/google/callback`. -/
theorem getCallbackURL_template (host providerId : String) :
    getCallbackURL host providerId = host ++ "/api/v1/login/" ++ providerId ++ "/callback"
    ∧ getCallbackURL "https://example.com" "google"
        = "https://example.com/api/v1/login/google/callback" :=
  ⟨Sprintf_callback host providerId, by decide⟩

/-! ## Identity-token verification -/

theorem FetchOIdToken_of_string (client : OpenIdClient) (oauth2Token : Token)
    (calls : VerifierCalls) (raw : String) (h : oauth2Token.Extra "id_token" = .str raw) :
    FetchOIdToken client oauth2Token calls =
      (match client.oidVerifier.check raw with
        | .ok token => (some token, none)
        | .error err => (none, some (.lib err)),
       calls ++ [raw]) := by
  simp only [FetchOIdToken, h, GoValue.assertString, IDTokenVerifier.Verify]
  cases client.oidVerifier.check raw <;> simp

theorem FetchOIdToken_of_not_string (client : OpenIdClient) (oauth2Token : Token)
    (calls : VerifierCalls) (h : ∀ raw, oauth2Token.Extra "id_token" ≠ .str raw) :
    FetchOIdToken client oauth2Token calls = ((none, some .ErrUnableToFetchOIdToken), calls) := by
  unfold FetchOIdToken
  cases hv : oauth2Token.Extra "id_token" with
  | str s => exact absurd hv (h s)
  | nil => simp [GoValue.assertString]
  | int i => simp [GoValue.assertString]
  | float t => simp [GoValue.assertString]
  | bool b => simp [GoValue.assertString]
  | composite r => simp [GoValue.assertString]

theorem GoValue_str_or_not (v : GoValue) : (∃ raw, v = .str raw) ∨ ∀ raw, v ≠ .str raw := by
  cases v <;> simp

theorem FetchOIdToken_ok_inv (client : OpenIdClient) (oauth2Token : Token)
    (calls : VerifierCalls) (t : IDToken)
    (ht : (FetchOIdToken client oauth2Token calls).1 = (some t, none)) :
    ∃ raw, oauth2Token.Extra "id_token" = .str raw ∧ client.oidVerifier.check raw = .ok t := by
  rcases GoValue_str_or_not (oauth2Token.Extra "id_token") with ⟨raw, hraw⟩ | hno
  · refine ⟨raw, hraw, ?_⟩
    rw [FetchOIdToken_of_string client oauth2Token calls raw hraw] at ht
    cases hc : client.oidVerifier.check raw with
    | ok token => simp [hc] at ht; rw [ht]
    | error err => simp [hc] at ht
  · rw [FetchOIdToken_of_not_string client oauth2Token calls hno] at ht
    simp at ht

/-- C1 : whenever `FetchOIdToken` returns an identity token and no error, the
`id_token` extra field of the OAuth2 token is a string and the returned token
is what the client's verifier answered on accepting exactly that string; and
whenever the verifier rejects the raw identity token, `FetchOIdToken` returns
no identity token and the verifier's error. -/
theorem FetchOIdToken_returns_verified (client : OpenIdClient) (oauth2Token : Token)
    (calls : VerifierCalls) :
    (∀ t, (FetchOIdToken client oauth2Token calls).1 = (some t, none) →
      ∃ raw, oauth2Token.Extra "id_token" = .str raw ∧ client.oidVerifier.check raw = .ok t)
    ∧ (∀ raw err, oauth2Token.Extra "id_token" = .str raw →
        client.oidVerifier.check raw = .error err →
        (FetchOIdToken client oauth2Token calls).1 = (none, some (.lib err))) := by
  constructor
  · intro t ht
    exact FetchOIdToken_ok_inv client oauth2Token calls t ht
  · intro raw err hraw hc
    rw [FetchOIdToken_of_string client oauth2Token calls raw hraw, hc]

theorem FetchOIdToken_returns_verified_witness :
    (FetchOIdToken exampleClient (tokenWithExtra (.str "good.jwt")) []).1 = (some tokenAbc, none)
    ∧ (∃ raw, (tokenWithExtra (.str "good.jwt")).Extra "id_token" = .str raw
        ∧ exampleClient.oidVerifier.check raw = .ok tokenAbc)
    ∧ (FetchOIdToken exampleClient (tokenWithExtra (.str "forged.jwt")) []).1
        = (none, some (.lib { pkg := "oidc", msg := "oidc: malformed jwt" })) :=
  ⟨by decide,
   (FetchOIdToken_returns_verified exampleClient (tokenWithExtra (.str "good.jwt")) []).1
     tokenAbc (by decide),
   (FetchOIdToken_returns_verified exampleClient (tokenWithExtra (.str "forged.jwt")) []).2
     "forged.jwt" _ (by decide) rfl⟩

/-! ## Tokens built from a token response -/

/-- C6 (as the code has it) : for every identity token that `FetchOIdToken`
returned without error, `GetAccountSub` returns the `Subject` field of the token
the verifier answered for the raw `id_token` string, unchanged; so it is
non-empty exactly when the verifier's token has a non-empty subject. -/
theorem GetAccountSub_is_verified_subject (client : OpenIdClient) (oauth2Token : Token)
    (calls : VerifierCalls) (t : IDToken)
    (h : (FetchOIdToken client oauth2Token calls).1 = (some t, none)) :
    ∃ raw verified, oauth2Token.Extra "id_token" = .str raw
      ∧ client.oidVerifier.check raw = .ok verified
      ∧ GetAccountSub client t = verified.Subject
      ∧ (GetAccountSub client t ≠ "" ↔ verified.Subject ≠ "") := by
  obtain ⟨raw, hraw, hc⟩ := FetchOIdToken_ok_inv client oauth2Token calls t h
  exact ⟨raw, t, hraw, hc, rfl, Iff.rfl⟩

theorem GetAccountSub_is_verified_subject_witness :
    ∃ raw verified, (tokenWithExtra (.str "good.jwt")).Extra "id_token" = .str raw
      ∧ exampleClient.oidVerifier.check raw = .ok verified
      ∧ GetAccountSub exampleClient tokenAbc = verified.Subject
      ∧ (GetAccountSub exampleClient tokenAbc ≠ "" ↔ verified.Subject ≠ "") :=
  GetAccountSub_is_verified_subject exampleClient (tokenWithExtra (.str "good.jwt")) []
    tokenAbc (by decide)

/-- C6, counterexample : the verifier of `exampleClient` accepts the raw token
`nosub.jwt`, `FetchOIdToken` returns its identity token without error, and
`GetAccountSub` of that token is the empty string. -/
theorem GetAccountSub_empty_for_verified_token :
    (FetchOIdToken exampleClient (tokenWithExtra (.str "nosub.jwt")) []).1
      = (some tokenWithoutSub, none)
    ∧ GetAccountSub exampleClient tokenWithoutSub = "" := by
  decide

/-! ## Loading a client -/

theorem LoadOpenIdClient_of_error (c : Config) (NewProvider : String → Except LibError Provider)
    (providerId : String) (err : LibError)
    (h : NewProvider (c.GetString ("auth." ++ providerId ++ ".endpoint.url")) = .error err) :
    LoadOpenIdClient c NewProvider providerId = (none, some (.lib err)) := by
  simp [LoadOpenIdClient, h]

theorem LoadOpenIdClient_of_ok (c : Config) (NewProvider : String → Except LibError Provider)
    (providerId : String) (p : Provider)
    (h : NewProvider (c.GetString ("auth." ++ providerId ++ ".endpoint.url")) = .ok p) :
    LoadOpenIdClient c NewProvider providerId =
      (some
        { oidProvider := p
          oAuth2Config :=
            { ClientID := c.GetString ("auth." ++ providerId ++ ".key")
              ClientSecret := c.GetString ("auth." ++ providerId ++ ".secret")
              RedirectURL := getCallbackURL (c.GetString "server.host") providerId
              Endpoint :=
                { AuthURL := c.GetString ("auth." ++ providerId ++ ".endpoint.auth_url")
                  TokenURL := c.GetString ("auth." ++ providerId ++ ".endpoint.token_url") }
              Scopes := ["openid", "email", "profile"] }
          oidVerifier := p.Verifier { ClientID := c.GetString ("auth." ++ providerId ++ ".key") } },
       none) := by
  simp [LoadOpenIdClient, h, ScopeOpenID]

/-- C7 (as the code has it) : `LoadOpenIdClient` fails, with discovery's error
and no client, whenever provider discovery for the configured issuer URL
`auth.<providerId>.endpoint.url` fails, and only then: whenever discovery
succeeds it returns a client and no error, whatever the configured client id
and client secret are, the empty string included. -/
theorem LoadOpenIdClient_fails_iff_discovery_fails (c : Config)
    (NewProvider : String → Except LibError Provider) (providerId : String) :
    (∀ err, NewProvider (c.GetString ("auth." ++ providerId ++ ".endpoint.url")) = .error err →
      LoadOpenIdClient c NewProvider providerId = (none, some (.lib err)))
    ∧ (∀ p, NewProvider (c.GetString ("auth." ++ providerId ++ ".endpoint.url")) = .ok p →
      (LoadOpenIdClient c NewProvider providerId).2 = none
      ∧ ∃ client, (LoadOpenIdClient c NewProvider providerId).1 = some client
          ∧ client.oAuth2Config.ClientID = c.GetString ("auth." ++ providerId ++ ".key")
          ∧ client.oAuth2Config.ClientSecret = c.GetString ("auth." ++ providerId ++ ".secret")) := by
  constructor
  · intro err h
    exact LoadOpenIdClient_of_error c NewProvider providerId err h
  · intro p h
    rw [LoadOpenIdClient_of_ok c NewProvider providerId p h]
    exact ⟨rfl, _, rfl, rfl, rfl⟩

theorem LoadOpenIdClient_fails_iff_discovery_fails_witness :
    LoadOpenIdClient { GetString := fun _ => "" } exampleNewProvider "google"
      = (none, some (.lib { pkg := "oidc", msg := "Get /.well-known/openid-configuration" })) :=
  (LoadOpenIdClient_fails_iff_discovery_fails { GetString := fun _ => "" } exampleNewProvider
    "google").1 _ rfl

/-- C7, counterexample : in `configWithoutKey` the client id and the client
secret of `google` are empty, discovery succeeds, and `LoadOpenIdClient`
returns a client and no error. -/
theorem LoadOpenIdClient_accepts_empty_key :
    configWithoutKey.GetString "auth.google.key" = ""
    ∧ configWithoutKey.GetString "auth.google.secret" = ""
    ∧ (LoadOpenIdClient configWithoutKey exampleNewProvider "google").2 = none
    ∧ (LoadOpenIdClient configWithoutKey exampleNewProvider "google").1.isSome = true
    ∧ ((LoadOpenIdClient configWithoutKey exampleNewProvider "google").1.map
        (fun client => client.oAuth2Config.ClientID)) = some "" := by
  decide

/-- C8 : for every provider id for which discovery succeeds, `LoadOpenIdClient`
returns a client whose OAuth2 configuration has exactly the scopes `openid`,
`email`, `profile`, the redirect URL `getCallbackURL` of the configured
`server.host` and the provider id, that is host, `/api/v1/login/`, provider id,
`/callback`, the configured `auth.<providerId>.key` and
`auth.<providerId>.secret` as client id and secret, and whose verifier is the
discovered provider's verifier for that same client id. -/
theorem LoadOpenIdClient_config (c : Config) (NewProvider : String → Except LibError Provider)
    (providerId : String) (p : Provider)
    (h : NewProvider (c.GetString ("auth." ++ providerId ++ ".endpoint.url")) = .ok p) :
    ∃ client, LoadOpenIdClient c NewProvider providerId = (some client, none)
      ∧ client.oAuth2Config.Scopes = ["openid", "email", "profile"]
      ∧ client.oAuth2Config.RedirectURL = getCallbackURL (c.GetString "server.host") providerId
      ∧ client.oAuth2Config.RedirectURL
          = c.GetString "server.host" ++ "/api/v1/login/" ++ providerId ++ "/callback"
      ∧ client.oAuth2Config.ClientID = c.GetString ("auth." ++ providerId ++ ".key")
      ∧ client.oAuth2Config.ClientSecret = c.GetString ("auth." ++ providerId ++ ".secret")
      ∧ client.oidProvider = p
      ∧ client.oidVerifier = p.Verifier { ClientID := client.oAuth2Config.ClientID }
      ∧ client.oidVerifier.config.ClientID = c.GetString ("auth." ++ providerId ++ ".key") := by
  refine ⟨_, LoadOpenIdClient_of_ok c NewProvider providerId p h, rfl, rfl, ?_, rfl, rfl, rfl,
    rfl, rfl⟩
  exact Sprintf_callback _ _

theorem LoadOpenIdClient_config_witness :
    ∃ client, LoadOpenIdClient exampleConfig exampleNewProvider "google" = (some client, none)
      ∧ client.oAuth2Config.Scopes = ["openid", "email", "profile"]
      ∧ client.oAuth2Config.RedirectURL
          = getCallbackURL (exampleConfig.GetString "server.host") "google"
      ∧ client.oAuth2Config.RedirectURL
          = exampleConfig.GetString "server.host" ++ "/api/v1/login/" ++ "google" ++ "/callback"
      ∧ client.oAuth2Config.ClientID = exampleConfig.GetString ("auth." ++ "google" ++ ".key")
      ∧ client.oAuth2Config.ClientSecret
          = exampleConfig.GetString ("auth." ++ "google" ++ ".secret")
      ∧ client.oidProvider = exampleProvider
      ∧ client.oidVerifier = exampleProvider.Verifier { ClientID := client.oAuth2Config.ClientID }
      ∧ client.oidVerifier.config.ClientID
          = exampleConfig.GetString ("auth." ++ "google" ++ ".key") :=
  LoadOpenIdClient_config exampleConfig exampleNewProvider "google" exampleProvider rfl

/-! ## Base64: arithmetic of a quantum -/

theorem shl_or_bytes (b0 b1 b2 : Nat) (h1 : b1 < 256) (h2 : b2 < 256) :
    b0 <<< 16 ||| b1 <<< 8 ||| b2 = b0 * 65536 + b1 * 256 + b2 := by
  have e1 : b0 <<< 16 ||| b1 <<< 8 = 2 ^ 16 * b0 + b1 * 256 := by
    rw [Nat.shiftLeft_eq, Nat.shiftLeft_eq, Nat.mul_comm b0 (2 ^ 16)]
    exact (Nat.mul_add_lt_is_or (by omega) b0).symm
  have e2 : 2 ^ 16 * b0 + b1 * 256 = 2 ^ 8 * (256 * b0 + b1) := by omega
  rw [e1, e2, ← Nat.mul_add_lt_is_or (by omega : b2 < 2 ^ 8)]
  omega

theorem quantumValue_eq (d0 d1 d2 d3 : Nat) (h1 : d1 < 64) (h2 : d2 < 64) (h3 : d3 < 64) :
    quantumValue d0 d1 d2 d3 = d0 * 262144 + d1 * 4096 + d2 * 64 + d3 := by
  unfold quantumValue
  have e1 : d0 <<< 18 ||| d1 <<< 12 = 2 ^ 18 * d0 + d1 * 4096 := by
    rw [Nat.shiftLeft_eq, Nat.shiftLeft_eq, Nat.mul_comm d0 (2 ^ 18)]
    exact (Nat.mul_add_lt_is_or (by omega) d0).symm
  have e2 : 2 ^ 18 * d0 + d1 * 4096 = 2 ^ 12 * (64 * d0 + d1) := by omega
  have e3 : 2 ^ 12 * (64 * d0 + d1) ||| d2 <<< 6 = 2 ^ 12 * (64 * d0 + d1) + d2 * 64 := by
    rw [Nat.shiftLeft_eq]
    exact (Nat.mul_add_lt_is_or (by omega) _).symm
  have e4 : 2 ^ 12 * (64 * d0 + d1) + d2 * 64 = 2 ^ 6 * (4096 * d0 + 64 * d1 + d2) := by omega
  rw [e1, e2, e3, e4, ← Nat.mul_add_lt_is_or (by omega : d3 < 2 ^ 6)]
  omega

theorem sextet_eq (v k : Nat) : v >>> k &&& 0x3F = v / 2 ^ k % 64 := by
  rw [Nat.shiftRight_eq_div_pow]
  exact Nat.and_pow_two_sub_one_eq_mod _ 6

theorem sextet_lt (v k : Nat) : v >>> k &&& 0x3F < 64 := by
  rw [sextet_eq]
  exact Nat.mod_lt _ (by decide)

theorem sextet0_eq (v : Nat) : v &&& 0x3F = v % 64 :=
  Nat.and_pow_two_sub_one_eq_mod v 6

theorem sextet0_lt (v : Nat) : v &&& 0x3F < 64 := by
  rw [sextet0_eq]
  exact Nat.mod_lt _ (by decide)

/-- The four digits of a 24-bit value put together again give the value. -/
theorem quantumValue_sextets (v : Nat) (hv : v < 16777216) :
    quantumValue (v >>> 18 &&& 0x3F) (v >>> 12 &&& 0x3F) (v >>> 6 &&& 0x3F) (v &&& 0x3F) = v := by
  rw [quantumValue_eq _ _ _ _ (sextet_lt v 12) (sextet_lt v 6) (sextet0_lt v),
    sextet_eq, sextet_eq, sextet_eq, sextet0_eq]
  omega

theorem quantumValue_sextets_two (v : Nat) (hv : v < 16777216) (h0 : v % 64 = 0) :
    quantumValue (v >>> 18 &&& 0x3F) (v >>> 12 &&& 0x3F) (v >>> 6 &&& 0x3F) 0 = v := by
  rw [quantumValue_eq _ _ _ _ (sextet_lt v 12) (sextet_lt v 6) (by decide),
    sextet_eq, sextet_eq, sextet_eq]
  omega

theorem quantumValue_sextets_one (v : Nat) (hv : v < 16777216) (h0 : v % 4096 = 0) :
    quantumValue (v >>> 18 &&& 0x3F) (v >>> 12 &&& 0x3F) 0 0 = v := by
  rw [quantumValue_eq _ _ _ _ (sextet_lt v 12) (by decide) (by decide), sextet_eq, sextet_eq]
  omega

theorem toByte_hi (b0 b1 b2 : Byte) :
    toByte ((b0.val * 65536 + b1.val * 256 + b2.val) >>> 16) = b0 := by
  apply Fin.ext
  have h0 := b0.isLt
  have h1 := b1.isLt
  have h2 := b2.isLt
  simp only [toByte, Nat.shiftRight_eq_div_pow]
  omega

theorem toByte_mid (b0 b1 b2 : Byte) :
    toByte ((b0.val * 65536 + b1.val * 256 + b2.val) >>> 8) = b1 := by
  apply Fin.ext
  have h0 := b0.isLt
  have h1 := b1.isLt
  have h2 := b2.isLt
  simp only [toByte, Nat.shiftRight_eq_div_pow]
  omega

theorem toByte_lo (b0 b1 b2 : Byte) :
    toByte (b0.val * 65536 + b1.val * 256 + b2.val) = b2 := by
  apply Fin.ext
  have h0 := b0.isLt
  have h1 := b1.isLt
  have h2 := b2.isLt
  simp only [toByte]
  omega

/-! ## Base64: the URL alphabet -/

theorem URLEncoding_decodeMap_encodeAt_fin :
    ∀ i : Fin 64, URLEncoding.decodeMap (URLEncoding.encodeAt i.val) = some i.val
      ∧ URLEncoding.encodeAt i.val ≠ '=' ∧ URLEncoding.encodeAt i.val ≠ '\r'
      ∧ URLEncoding.encodeAt i.val ≠ '\n' := by
  decide

theorem URLEncoding_decodeMap_encodeAt (i : Nat) (h : i < 64) :
    URLEncoding.decodeMap (URLEncoding.encodeAt i) = some i :=
  (URLEncoding_decodeMap_encodeAt_fin ⟨i, h⟩).1

theorem URLEncoding_encodeAt_ne_pad (i : Nat) (h : i < 64) :
    URLEncoding.padChar ≠ some (URLEncoding.encodeAt i) := by
  intro hp
  have := (URLEncoding_decodeMap_encodeAt_fin ⟨i, h⟩).2.1
  simp only [URLEncoding, Option.some.injEq] at hp
  exact this hp.symm

theorem URLEncoding_encodeAt_not_newline (i : Nat) (h : i < 64) :
    URLEncoding.encodeAt i ≠ '\r' ∧ URLEncoding.encodeAt i ≠ '\n' :=
  (URLEncoding_decodeMap_encodeAt_fin ⟨i, h⟩).2.2

theorem URLEncoding_padChar : URLEncoding.padChar = some '=' := rfl

/-! ## Base64: decoding undoes encoding -/

theorem URLEncoding_decodeList_encodeList :
    ∀ src : List Byte, URLEncoding.decodeList (URLEncoding.encodeList src) = some src
  | [] => by simp [Encoding.encodeList, Encoding.decodeList]
  | [b0] => by
    have hb0 := b0.isLt
    have hv : b0.val <<< 16 = b0.val * 65536 + (0 : Byte).val * 256 + (0 : Byte).val := by
      rw [Nat.shiftLeft_eq]; simp
    have hq := quantumValue_sextets_one (b0.val <<< 16)
      (by rw [Nat.shiftLeft_eq]; omega) (by rw [Nat.shiftLeft_eq]; omega)
    simp only [Encoding.encodeList, URLEncoding_padChar, Option.toList, List.cons_append,
      List.nil_append, Encoding.decodeList, if_true, ne_eq, not_true_eq_false, if_false,
      ← URLEncoding_padChar,
      URLEncoding_decodeMap_encodeAt _ (sextet_lt _ _), hq]
    rw [hv, toByte_hi]
  | [b0, b1] => by
    have hb0 := b0.isLt
    have hb1 := b1.isLt
    have hv : b0.val <<< 16 ||| b1.val <<< 8 = b0.val * 65536 + b1.val * 256 + (0 : Byte).val := by
      have := shl_or_bytes b0.val b1.val 0 hb1 (by decide)
      simpa using this
    have hv' : b0.val <<< 16 ||| b1.val <<< 8 = b0.val * 65536 + b1.val * 256 := by
      rw [hv]; simp
    have hq := quantumValue_sextets_two (b0.val <<< 16 ||| b1.val <<< 8)
      (by rw [hv']; omega) (by rw [hv']; omega)
    simp only [Encoding.encodeList, URLEncoding_padChar, Option.toList,
      Encoding.decodeList, if_true, ne_eq, not_true_eq_false, if_false]
    rw [← URLEncoding_padChar, if_neg (URLEncoding_encodeAt_ne_pad _ (sextet_lt _ _))]
    simp only [URLEncoding_decodeMap_encodeAt _ (sextet_lt _ _), hq]
    rw [hv, toByte_hi, toByte_mid]
  | b0 :: b1 :: b2 :: rest => by
    have ih := URLEncoding_decodeList_encodeList rest
    have hb0 := b0.isLt
    have hb1 := b1.isLt
    have hb2 := b2.isLt
    have hv := shl_or_bytes b0.val b1.val b2.val hb1 hb2
    have hq := quantumValue_sextets (b0.val <<< 16 ||| b1.val <<< 8 ||| b2.val)
      (by rw [hv]; omega)
    simp only [Encoding.encodeList, Encoding.decodeList]
    rw [if_neg (URLEncoding_encodeAt_ne_pad _ (sextet0_lt _))]
    simp only [URLEncoding_decodeMap_encodeAt _ (sextet_lt _ _),
      URLEncoding_decodeMap_encodeAt _ (sextet0_lt _), hq, ih, Option.map_some']
    rw [hv, toByte_hi, toByte_mid, toByte_lo]

theorem URLEncoding_encodeList_chars :
    ∀ src : List Byte, ∀ c ∈ URLEncoding.encodeList src, c ≠ '\r' ∧ c ≠ '\n'
  | [] => by simp [Encoding.encodeList]
  | [b0] => by
    intro c hc
    simp only [Encoding.encodeList, URLEncoding_padChar, Option.toList, List.cons_append,
      List.nil_append, List.mem_cons, List.mem_singleton] at hc
    rcases hc with h | h | h | h | h
    · rw [h]; exact URLEncoding_encodeAt_not_newline _ (sextet_lt _ _)
    · rw [h]; exact URLEncoding_encodeAt_not_newline _ (sextet_lt _ _)
    · rw [h]; decide
    · rw [h]; decide
    · simp at h
  | [b0, b1] => by
    intro c hc
    simp only [Encoding.encodeList, URLEncoding_padChar, Option.toList, List.mem_cons,
      List.mem_singleton] at hc
    rcases hc with h | h | h | h | h
    · rw [h]; exact URLEncoding_encodeAt_not_newline _ (sextet_lt _ _)
    · rw [h]; exact URLEncoding_encodeAt_not_newline _ (sextet_lt _ _)
    · rw [h]; exact URLEncoding_encodeAt_not_newline _ (sextet_lt _ _)
    · rw [h]; decide
    · simp at h
  | b0 :: b1 :: b2 :: rest => by
    intro c hc
    simp only [Encoding.encodeList, List.mem_cons] at hc
    rcases hc with h | h | h | h | h
    · rw [h]; exact URLEncoding_encodeAt_not_newline _ (sextet_lt _ _)
    · rw [h]; exact URLEncoding_encodeAt_not_newline _ (sextet_lt _ _)
    · rw [h]; exact URLEncoding_encodeAt_not_newline _ (sextet_lt _ _)
    · rw [h]; exact URLEncoding_encodeAt_not_newline _ (sextet0_lt _)
    · exact URLEncoding_encodeList_chars rest c h

/-- Decoding the URL-safe base64 encoding of a byte sequence gives the byte
sequence back. -/
theorem URLEncoding_DecodeString_EncodeToString (src : List Byte) :
    URLEncoding.DecodeString (URLEncoding.EncodeToString src) = some src := by
  unfold Encoding.DecodeString Encoding.EncodeToString
  have hf : (String.mk (URLEncoding.encodeList src)).toList.filter
      (fun c => c ≠ '\r' ∧ c ≠ '\n') = URLEncoding.encodeList src := by
    apply List.filter_eq_self.mpr
    intro c hc
    have := URLEncoding_encodeList_chars src c hc
    simp [this.1, this.2]
  rw [hf]
  exact URLEncoding_decodeList_encodeList src

theorem URLEncoding_EncodeToString_injective (a b : List Byte)
    (h : URLEncoding.EncodeToString a = URLEncoding.EncodeToString b) : a = b := by
  have ha := URLEncoding_DecodeString_EncodeToString a
  rw [h, URLEncoding_DecodeString_EncodeToString b] at ha
  exact (Option.some.inj ha).symm

/-! ## `GenerateToken` -/

theorem makeBytes_nonneg (length : Int) (h : 0 ≤ length) :
    makeBytes length = .returned (List.replicate length.toNat 0) := by
  simp [makeBytes, not_lt.mpr h]

theorem makeBytes_neg (length : Int) (h : length < 0) :
    makeBytes length = .panicked "runtime error: makeslice: len out of range" := by
  simp [makeBytes, h]

theorem GenerateToken_of_buffer (rand : RandReader) (length : Int) (b : List Byte)
    (h : makeBytes length = .returned b) :
    GenerateToken rand length =
      (match (rand.Read b).2.2 with
        | some e => .returned ("", some (.lib e))
        | none => .returned (URLEncoding.EncodeToString (rand.Read b).1, none)) := by
  simp only [GenerateToken, h]
  cases (rand.Read b).2.2 <;> simp

theorem RandReader_Read_full (rand : RandReader) (n : Nat) (b : List Byte)
    (err : Option LibError) (hb : b.length = n) (hr : rand.supply n = (b, err)) :
    rand.Read (List.replicate n 0) = (b, n, err) := by
  subst hb
  simp [RandReader.Read, hr]

/-- C3 : for every length above zero and every sequence `b` of exactly `length`
bytes that the random source supplies without error, `GenerateToken` returns
the URL-safe base64 encoding of `b` and no error; decoding that string with the
same encoding gives exactly `b`, hence exactly `length` bytes; and another byte
sequence with the same encoding is `b` itself. -/
theorem GenerateToken_decodes_to_random_bytes (rand : RandReader) (length : Int)
    (b : List Byte) (hlen : 0 < length) (hb : (b.length : Int) = length)
    (hr : rand.supply length.toNat = (b, none)) :
    GenerateToken rand length = .returned (URLEncoding.EncodeToString b, none)
    ∧ URLEncoding.DecodeString (URLEncoding.EncodeToString b) = some b
    ∧ (∀ d, URLEncoding.DecodeString (URLEncoding.EncodeToString b) = some d →
        (d.length : Int) = length)
    ∧ (∀ b', URLEncoding.EncodeToString b' = URLEncoding.EncodeToString b → b' = b) := by
  have hn : b.length = length.toNat := by omega
  refine ⟨?_, URLEncoding_DecodeString_EncodeToString b, ?_, ?_⟩
  · rw [GenerateToken_of_buffer rand length _ (makeBytes_nonneg length (le_of_lt hlen)),
      RandReader_Read_full rand length.toNat b none hn hr]
  · intro d hd
    rw [URLEncoding_DecodeString_EncodeToString b] at hd
    rw [← Option.some.inj hd]
    exact hb
  · intro b' h
    exact URLEncoding_EncodeToString_injective b' b h

theorem GenerateToken_decodes_to_random_bytes_witness :
    GenerateToken randCounting 5 = .returned ("AAECAwQ=", none)
    ∧ URLEncoding.DecodeString "AAECAwQ=" = some [0, 1, 2, 3, 4] := by
  have h := GenerateToken_decodes_to_random_bytes randCounting 5 [0, 1, 2, 3, 4]
    (by decide) (by decide) (by decide)
  exact ⟨h.1, h.2.1⟩

/-- C9 : for every length, if the read of the random source that
`GenerateToken` makes on its buffer returns an error, `GenerateToken` returns
the empty string together with that error; if the read returns no error,
`GenerateToken` returns no error; and whatever `GenerateToken` returns is either
the empty string with the error of that one read, or the encoding of the buffer
that read filled, with no error. -/
theorem GenerateToken_propagates_rand_error (rand : RandReader) (length : Int) :
    (∀ b e, makeBytes length = .returned b → (rand.Read b).2.2 = some e →
      GenerateToken rand length = .returned ("", some (.lib e)))
    ∧ (∀ b, makeBytes length = .returned b → (rand.Read b).2.2 = none →
      GenerateToken rand length = .returned (URLEncoding.EncodeToString (rand.Read b).1, none))
    ∧ (∀ token err, GenerateToken rand length = .returned (token, err) →
      ∃ b, makeBytes length = .returned b
        ∧ ((∃ e, (rand.Read b).2.2 = some e ∧ token = "" ∧ err = some (.lib e))
          ∨ ((rand.Read b).2.2 = none ∧ err = none
              ∧ token = URLEncoding.EncodeToString (rand.Read b).1))) := by
  refine ⟨?_, ?_, ?_⟩
  · intro b e hb he
    rw [GenerateToken_of_buffer rand length b hb, he]
  · intro b hb he
    rw [GenerateToken_of_buffer rand length b hb, he]
  · intro token err h
    rcases lt_or_le length 0 with hneg | hpos
    · simp [GenerateToken, makeBytes_neg length hneg] at h
    · refine ⟨_, makeBytes_nonneg length hpos, ?_⟩
      rw [GenerateToken_of_buffer rand length _ (makeBytes_nonneg length hpos)] at h
      cases he : (rand.Read (List.replicate length.toNat 0)).2.2 with
      | some e =>
        rw [he] at h
        simp only [Outcome.returned.injEq, Prod.mk.injEq] at h
        exact Or.inl ⟨e, rfl, h.1.symm, h.2.symm⟩
      | none =>
        rw [he] at h
        simp only [Outcome.returned.injEq, Prod.mk.injEq] at h
        exact Or.inr ⟨rfl, h.2.symm, h.1.symm⟩

theorem GenerateToken_propagates_rand_error_witness :
    GenerateToken randFailing 16
      = .returned ("", some (.lib { pkg := "crypto/rand", msg := "unexpected EOF" })) :=
  (GenerateToken_propagates_rand_error randFailing 16).1 (List.replicate 16 0)
    { pkg := "crypto/rand", msg := "unexpected EOF" } (by decide) (by decide)

/-! ## Registering a user -/

theorem splitPath_email : splitPath "email".toList = ["email"] := by decide

/-- A stored account has no top-level `email` field, so it matches no query
`bson.M{"email": v}`. -/
theorem UserAccount_marshal_not_matches_email (env : ModelsEnv) (account : UserAccount)
    (v : String) : (account.marshal env).matchesM "email" v = false := by
  have h : BsonDoc.field (account.marshal env) "email" = none := by
    simp [BsonDoc.field, UserAccount.marshal, List.find?]
  simp [BsonDoc.matchesM, splitPath_email, BsonDoc.atPath, h]

theorem FindCount_email_of_stored (env : ModelsEnv) (db : Database) (v : String)
    (hreach : db.unreachable = none)
    (hstored : ∀ d ∈ db.users, ∃ account : UserAccount, d = account.marshal env) :
    db.FindCount "email" v = (0, none) := by
  have hf : db.users.filter (fun d => d.matchesM "email" v) = [] := by
    apply List.filter_eq_nil_iff.mpr
    intro d hd
    obtain ⟨account, rfl⟩ := hstored d hd
    simp [UserAccount_marshal_not_matches_email]
  simp [Database.FindCount, hreach, hf]

/-- On a reachable collection that holds only accounts stored by `Save`, the
email check of `RegisterUser` never fires: a valid payload is always turned into
an account, whatever emails are stored. -/
theorem RegisterUser_email_check_blind (env : ModelsEnv) (payload : ProfilePayload)
    (db : Database) (hvalid : env.validatePayload payload = none)
    (hreach : db.unreachable = none)
    (hstored : ∀ d ∈ db.users, ∃ account : UserAccount, d = account.marshal env) :
    (RegisterUser env payload db).1.2 ≠ some .ErrEmailAlreadyInUse
    ∧ ∃ account, (RegisterUser env payload db).1.1 = some account
        ∧ account.Profile.Email = payload.Email := by
  have hc := FindCount_email_of_stored env db payload.Email hreach hstored
  by_cases he : payload.Email = ""
  · simp [RegisterUser, hvalid, he, UserAccount.Save]
  · simp [RegisterUser, hvalid, he, hc, UserAccount.Save]

theorem RegisterUser_email_check_blind_at_ada :
    (RegisterUser exampleModelsEnv payloadAda databaseWithAda).1.2
      ≠ some .ErrEmailAlreadyInUse
    ∧ ∃ account, (RegisterUser exampleModelsEnv payloadAda databaseWithAda).1.1 = some account
        ∧ account.Profile.Email = payloadAda.Email :=
  RegisterUser_email_check_blind exampleModelsEnv payloadAda databaseWithAda (by decide) rfl
    (by
      intro d hd
      have hu : databaseWithAda.users =
          [UserAccount.marshal exampleModelsEnv
            { Id := "5b1e6f0a9d3c2a0001100000", Enrolled := true,
              Profile := { Email := "ada@example.com", FamilyName := "Lovelace",
                           GivenName := "Ada", Nickname := "ada", PictureURL := "" },
              Bookmarks := [] }] := rfl
      rw [hu] at hd
      exact ⟨_, List.mem_singleton.mp hd⟩)

/-- C10, the code at the failing input : `RegisterUser` stores `payloadAda`
(email `ada@example.com`) in an empty collection; called again with the same
payload on the resulting collection it returns a second account and no error,
and the collection then holds two accounts whose `profile.email` is
`ada@example.com`, none of which the query on `email` matches. -/
theorem RegisterUser_same_email_twice :
    (RegisterUser exampleModelsEnv payloadAda emptyDatabase).1 =
      (some { Id := "5b1e6f0a9d3c2a0001100000", Enrolled := true,
              Profile := { Email := "ada@example.com", FamilyName := "Lovelace",
                           GivenName := "Ada", Nickname := "ada", PictureURL := "" },
              Bookmarks := [] }, none)
    ∧ (RegisterUser exampleModelsEnv payloadAda databaseWithAda).1 =
      (some { Id := "5b1e6f0a9d3c2a0001100001", Enrolled := true,
              Profile := { Email := "ada@example.com", FamilyName := "Lovelace",
                           GivenName := "Ada", Nickname := "ada", PictureURL := "" },
              Bookmarks := [] }, none)
    ∧ databaseWithAda.users.map (fun d => d.matchesM "profile.email" "ada@example.com") = [true]
    ∧ (RegisterUser exampleModelsEnv payloadAda databaseWithAda).2.users.map
        (fun d => d.matchesM "profile.email" "ada@example.com") = [true, true]
    ∧ (RegisterUser exampleModelsEnv payloadAda databaseWithAda).2.users.map
        (fun d => d.matchesM "email" "ada@example.com") = [false, false] := by
  decide

/-! ## Query escaping -/

set_option maxRecDepth 1000000 in
theorem escapeByte_facts :
    ∀ b : Byte,
      (shouldEscape b = false →
        byteChar b ≠ '%' ∧ byteChar b ≠ '+' ∧ charBytes (byteChar b) = [b]
          ∧ escapedChar (byteChar b) = true)
      ∧ ishex (upperhex.getD (b.val >>> 4) '0') = true
      ∧ ishex (upperhex.getD (b.val &&& 15) '0') = true
      ∧ toByte (unhex (upperhex.getD (b.val >>> 4) '0') <<< 4
          ||| unhex (upperhex.getD (b.val &&& 15) '0')) = b
      ∧ escapedChar (upperhex.getD (b.val >>> 4) '0') = true
      ∧ escapedChar (upperhex.getD (b.val &&& 15) '0') = true := by
  decide

theorem unescapeList_plus (rest : List Char) :
    unescapeList ('+' :: rest) = (unescapeList rest).map (fun tl => toByte ' '.toNat :: tl) := by
  rw [unescapeList.eq_def]
  simp

theorem unescapeList_percent (h1 h2 : Char) (rest : List Char) :
    unescapeList ('%' :: h1 :: h2 :: rest) =
      if ishex h1 ∧ ishex h2 then
        (unescapeList rest).map (fun tl => toByte (unhex h1 <<< 4 ||| unhex h2) :: tl)
      else none := by
  rw [unescapeList.eq_def]
  simp

theorem unescapeList_other (c : Char) (rest : List Char) (h1 : c ≠ '%') (h2 : c ≠ '+') :
    unescapeList (c :: rest) = (unescapeList rest).map (fun tl => charBytes c ++ tl) := by
  rw [unescapeList.eq_def]
  simp only []
  rw [if_neg h1, if_neg h2]

theorem unescapeList_escapeByte (b : Byte) (rest : List Char) :
    unescapeList (escapeByte b ++ rest) = (unescapeList rest).map (fun tl => b :: tl) := by
  obtain ⟨hkeep, hh, hl, hb, -, -⟩ := escapeByte_facts b
  unfold escapeByte
  by_cases hsp : b.val = ' '.toNat
  · have hb32 : toByte ' '.toNat = b := by
      apply Fin.ext
      rw [← hsp]
      exact Nat.mod_eq_of_lt b.isLt
    rw [if_pos hsp, List.singleton_append, unescapeList_plus, hb32]
  · rw [if_neg hsp]
    by_cases hesc : shouldEscape b = true
    · rw [if_pos hesc]
      show unescapeList ('%' :: _ :: _ :: rest) = _
      rw [unescapeList_percent, if_pos ⟨hh, hl⟩, hb]
    · have hesc' : shouldEscape b = false := by simpa using hesc
      obtain ⟨h1, h2, h3, -⟩ := hkeep hesc'
      rw [if_neg hesc, List.singleton_append, unescapeList_other _ _ h1 h2, h3]
      rfl

/-- Unescaping an escaped byte sequence gives the byte sequence back. -/
theorem unescapeList_escapeBytes (bs : List Byte) : unescapeList (escapeBytes bs) = some bs := by
  induction bs with
  | nil => simp [escapeBytes, unescapeList]
  | cons b bs ih =>
    have : escapeBytes (b :: bs) = escapeByte b ++ escapeBytes bs := by
      simp [escapeBytes]
    rw [this, unescapeList_escapeByte, ih]
    rfl

theorem escapeByte_chars (b : Byte) : ∀ c ∈ escapeByte b, escapedChar c = true := by
  obtain ⟨hkeep, -, -, -, eh, el⟩ := escapeByte_facts b
  intro c hc
  unfold escapeByte at hc
  by_cases hsp : b.val = ' '.toNat
  · simp only [hsp, if_true, List.mem_singleton] at hc
    rw [hc]; decide
  · simp only [hsp, if_false] at hc
    by_cases hesc : shouldEscape b = true
    · simp only [hesc, if_true, List.mem_cons, List.mem_singleton] at hc
      rcases hc with h | h | h | h
      · rw [h]; decide
      · rw [h]; exact eh
      · rw [h]; exact el
      · simp at h
    · have hesc' : shouldEscape b = false := by simpa using hesc
      simp only [hesc', Bool.false_eq_true, if_false, List.mem_singleton] at hc
      rw [hc]; exact (hkeep hesc').2.2.2

theorem escapeBytes_chars (bs : List Byte) : ∀ c ∈ escapeBytes bs, escapedChar c = true := by
  intro c hc
  simp only [escapeBytes, List.mem_flatMap] at hc
  obtain ⟨b, -, hb⟩ := hc
  exact escapeByte_chars b c hb

theorem escapedChar_ne (c : Char) (h : escapedChar c = true) :
    c ≠ '=' ∧ c ≠ '&' ∧ c ≠ ';' ∧ c ≠ '#' ∧ c ≠ '?' ∧ queryChar c = true := by
  refine ⟨?_, ?_, ?_, ?_, ?_, ?_⟩
  · rintro rfl; revert h; decide
  · rintro rfl; revert h; decide
  · rintro rfl; revert h; decide
  · rintro rfl; revert h; decide
  · rintro rfl; revert h; decide
  · simp only [escapedChar, Bool.or_eq_true] at h
    simp only [queryChar, Bool.or_eq_true]
    tauto

theorem QueryEscape_toList (s : String) : (QueryEscape s).toList = escapeBytes (utf8 s) := rfl

/-- Unescaping an escaped string gives the bytes of the
string. -/
theorem QueryUnescape_QueryEscape (s : String) : QueryUnescape (QueryEscape s) = some (utf8 s) :=
  unescapeList_escapeBytes (utf8 s)

/-! ## Cutting and splitting -/

theorem cutAt_append (sep : Char) (a b : List Char) (h : sep ∉ a) :
    cutAt sep (a ++ sep :: b) = (a, b) := by
  induction a with
  | nil => simp [cutAt]
  | cons c a ih =>
    have hc : c ≠ sep := fun e => h (by simp [e])
    have ha : sep ∉ a := fun e => h (by simp [e])
    simp [cutAt, hc, ih ha]

theorem cutAt_not_mem (sep : Char) (a : List Char) (h : sep ∉ a) : cutAt sep a = (a, []) := by
  induction a with
  | nil => simp [cutAt]
  | cons c a ih =>
    have hc : c ≠ sep := fun e => h (by simp [e])
    have ha : sep ∉ a := fun e => h (by simp [e])
    simp [cutAt, hc, ih ha]

theorem splitAmp_ne_nil (s : List Char) : splitAmp s ≠ [] := by
  cases s with
  | nil => simp [splitAmp]
  | cons c cs =>
    unfold splitAmp
    by_cases h : c = '&'
    · simp [h]
    · simp only [h, if_false]
      cases splitAmp cs <;> simp

theorem splitAmp_not_mem (a : List Char) (h : '&' ∉ a) : splitAmp a = [a] := by
  induction a with
  | nil => simp [splitAmp]
  | cons c a ih =>
    have hc : c ≠ '&' := fun e => h (by simp [e])
    have ha : '&' ∉ a := fun e => h (by simp [e])
    simp [splitAmp, hc, ih ha]

theorem splitAmp_append (a b : List Char) (h : '&' ∉ a) :
    splitAmp (a ++ '&' :: b) = a :: splitAmp b := by
  induction a with
  | nil => simp [splitAmp]
  | cons c a ih =>
    have hc : c ≠ '&' := fun e => h (by simp [e])
    have ha : '&' ∉ a := fun e => h (by simp [e])
    simp [splitAmp, hc, ih ha]

/-- Splitting at `&` distributes over joining two queries with `&`. -/
theorem splitAmp_cons_of_ne (c : Char) (cs : List Char) (h : c ≠ '&') :
    splitAmp (c :: cs) = (c :: (splitAmp cs).headD []) :: (splitAmp cs).tail := by
  cases hs : splitAmp cs with
  | nil => exact absurd hs (splitAmp_ne_nil cs)
  | cons s ss => simp [splitAmp, h, hs]

/-- Splitting at the separator distributes over joining two queries with it. -/
theorem splitAmp_join (a b : List Char) :
    splitAmp (a ++ '&' :: b) = splitAmp a ++ splitAmp b := by
  induction a with
  | nil => simp [splitAmp]
  | cons c a ih =>
    by_cases hc : c = '&'
    · simp [splitAmp, hc, ih]
    · rw [List.cons_append, splitAmp_cons_of_ne c _ hc, splitAmp_cons_of_ne c a hc, ih]
      cases hs : splitAmp a with
      | nil => exact absurd hs (splitAmp_ne_nil a)
      | cons s ss => simp

/-! ## Parsing an encoded query -/

theorem parseQueryLoop_encoded (k x : String) (query : List (List Char)) (m : ParsedValues)
    (err : Option LibError) :
    parseQueryLoop (((QueryEscape k).toList ++ '=' :: (QueryEscape x).toList) :: query) m err
      = parseQueryLoop query (m ++ [(utf8 k, utf8 x)]) err := by
  have hk := escapeBytes_chars (utf8 k)
  have hx := escapeBytes_chars (utf8 x)
  have hsemi : ';' ∉ (QueryEscape k).toList ++ '=' :: (QueryEscape x).toList := by
    intro hmem
    rcases List.mem_append.mp hmem with h | h
    · exact (escapedChar_ne _ (hk _ h)).2.2.1 rfl
    · rcases List.mem_cons.mp h with h | h
      · exact absurd h (by decide)
      · exact (escapedChar_ne _ (hx _ h)).2.2.1 rfl
  have heq : '=' ∉ (QueryEscape k).toList := fun h => (escapedChar_ne _ (hk _ h)).1 rfl
  have hne : (QueryEscape k).toList ++ '=' :: (QueryEscape x).toList ≠ [] := by simp
  rw [parseQueryLoop, if_neg hsemi, if_neg hne, cutAt_append '=' _ _ heq]
  simp only [QueryEscape_toList, unescapeList_escapeBytes]

theorem encodePairs_cons_cons (p q : String × String) (rest : List (String × String)) :
    encodePairs (p :: q :: rest) =
      ((QueryEscape p.1).toList ++ '=' :: (QueryEscape p.2).toList) ++ '&' :: encodePairs (q :: rest) := by
  obtain ⟨k, x⟩ := p
  simp [encodePairs]

theorem encodePairs_single (p : String × String) :
    encodePairs [p] = (QueryEscape p.1).toList ++ '=' :: (QueryEscape p.2).toList := by
  obtain ⟨k, x⟩ := p
  simp [encodePairs]

theorem encoded_pair_no_amp (k x : String) :
    '&' ∉ (QueryEscape k).toList ++ '=' :: (QueryEscape x).toList := by
  intro hmem
  rcases List.mem_append.mp hmem with h | h
  · exact (escapedChar_ne _ (escapeBytes_chars (utf8 k) _ h)).2.1 rfl
  · rcases List.mem_cons.mp h with h | h
    · exact absurd h (by decide)
    · exact (escapedChar_ne _ (escapeBytes_chars (utf8 x) _ h)).2.1 rfl

/-- Parsing the text written for key-value pairs gives the bytes of the pairs,
in order, and no error. -/
theorem parseQueryLoop_encodePairs (ps : List (String × String)) :
    ∀ m : ParsedValues,
      parseQueryLoop (splitAmp (encodePairs ps)) m none
        = (m ++ ps.map (fun p => (utf8 p.1, utf8 p.2)), none) := by
  induction ps with
  | nil =>
    intro m
    simp [encodePairs, splitAmp, parseQueryLoop]
  | cons p rest ih =>
    intro m
    cases rest with
    | nil =>
      rw [encodePairs_single, splitAmp_not_mem _ (encoded_pair_no_amp p.1 p.2),
        parseQueryLoop_encoded]
      simp [parseQueryLoop]
    | cons q rest =>
      rw [encodePairs_cons_cons, splitAmp_append _ _ (encoded_pair_no_amp p.1 p.2),
        parseQueryLoop_encoded, ih]
      simp

theorem encodePairs_chars (ps : List (String × String)) :
    ∀ c ∈ encodePairs ps, queryChar c = true := by
  have hpair : ∀ (k x : String), ∀ c ∈ (QueryEscape k).toList ++ '=' :: (QueryEscape x).toList,
      queryChar c = true := by
    intro k x c hmem
    rcases List.mem_append.mp hmem with h | h
    · exact (escapedChar_ne _ (escapeBytes_chars (utf8 k) _ h)).2.2.2.2.2
    · rcases List.mem_cons.mp h with h | h
      · rw [h]; decide
      · exact (escapedChar_ne _ (escapeBytes_chars (utf8 x) _ h)).2.2.2.2.2
  induction ps with
  | nil => simp [encodePairs]
  | cons p rest ih =>
    cases rest with
    | nil =>
      rw [encodePairs_single]
      exact hpair p.1 p.2
    | cons q rest =>
      rw [encodePairs_cons_cons]
      intro c hmem
      rcases List.mem_append.mp hmem with h | h
      · exact hpair p.1 p.2 c h
      · rcases List.mem_cons.mp h with h | h
        · rw [h]; decide
        · exact ih c h

theorem queryChar_ne (c : Char) (h : queryChar c = true) : c ≠ '#' ∧ c ≠ '?' := by
  constructor
  · rintro rfl; revert h; decide
  · rintro rfl; revert h; decide

/-! ## The parse loop on joined queries -/

theorem parseQueryLoop_values_gen (s : List (List Char)) :
    ∀ (m : ParsedValues) (err err' : Option LibError),
      (parseQueryLoop s m err).1 = m ++ (parseQueryLoop s [] err').1 := by
  induction s with
  | nil => intro m err err'; simp [parseQueryLoop]
  | cons key query ih =>
    intro m err err'
    rw [parseQueryLoop, parseQueryLoop]
    by_cases h1 : ';' ∈ key
    · rw [if_pos h1, if_pos h1]
      exact ih m _ _
    · rw [if_neg h1, if_neg h1]
      by_cases h2 : key = []
      · rw [if_pos h2, if_pos h2]
        exact ih m _ _
      · rw [if_neg h2, if_neg h2]
        simp only []
        cases unescapeList (cutAt '=' key).1 with
        | none => exact ih m _ _
        | some k1 =>
          cases unescapeList (cutAt '=' key).2 with
          | none => exact ih m _ _
          | some v1 =>
            simp only []
            rw [ih (m ++ [(k1, v1)]) err none, ih ([] ++ [(k1, v1)]) err' none]
            simp

theorem parseQueryLoop_values (s : List (List Char)) (m : ParsedValues)
    (err : Option LibError) :
    (parseQueryLoop s m err).1 = m ++ (parseQueryLoop s [] none).1 :=
  parseQueryLoop_values_gen s m err none

theorem parseQueryLoop_append (s1 s2 : List (List Char)) :
    ∀ (m : ParsedValues) (err : Option LibError),
      parseQueryLoop (s1 ++ s2) m err
        = parseQueryLoop s2 (parseQueryLoop s1 m err).1 (parseQueryLoop s1 m err).2 := by
  induction s1 with
  | nil => intro m err; simp [parseQueryLoop]
  | cons key query ih =>
    intro m err
    rw [List.cons_append, parseQueryLoop, parseQueryLoop]
    by_cases h1 : ';' ∈ key
    · rw [if_pos h1, if_pos h1, ih]
    · rw [if_neg h1, if_neg h1]
      by_cases h2 : key = []
      · rw [if_pos h2, if_pos h2, ih]
      · rw [if_neg h2, if_neg h2]
        simp only []
        cases unescapeList (cutAt '=' key).1 with
        | none => simp only []; rw [ih]
        | some k1 =>
          cases unescapeList (cutAt '=' key).2 with
          | none => simp only []; rw [ih]
          | some v1 => simp only []; rw [ih]

/-- The values of two queries joined by the separator are the values of the
first followed by the values of the second. -/
theorem ParseQuery_join_values (a b : List Char) :
    (parseQueryLoop (splitAmp (a ++ '&' :: b)) [] none).1
      = (parseQueryLoop (splitAmp a) [] none).1 ++ (parseQueryLoop (splitAmp b) [] none).1 := by
  rw [splitAmp_join, parseQueryLoop_append, parseQueryLoop_values]

/-! ## The authorization URL -/

theorem AuthCodeURL_eq (c : OAuth2Config) (state : String) :
    c.AuthCodeURL state
      = c.Endpoint.AuthURL ++ authSeparator c ++ String.mk (encodePairs (authPairs c state)) := by
  unfold OAuth2Config.AuthCodeURL authSeparator authPairs Values.Encode
  by_cases h1 : c.RedirectURL = "" <;> by_cases h2 : c.Scopes.length > 0 <;>
    by_cases h3 : state = "" <;>
    simp +decide [h1, h2, h3, Values.Set, sortKeys, insertKey, stringLess]

set_option maxRecDepth 100000 in
theorem utf8_keys :
    utf8 "client_id" = [99, 108, 105, 101, 110, 116, 95, 105, 100]
    ∧ utf8 "redirect_uri" = [114, 101, 100, 105, 114, 101, 99, 116, 95, 117, 114, 105]
    ∧ utf8 "response_type" = [114, 101, 115, 112, 111, 110, 115, 101, 95, 116, 121, 112, 101]
    ∧ utf8 "scope" = [115, 99, 111, 112, 101]
    ∧ utf8 "state" = [115, 116, 97, 116, 101]
    ∧ utf8 "" = [] := by
  decide

theorem authPairs_Get (c : OAuth2Config) (state : String) :
    ParsedValues.Get ((authPairs c state).map (fun p => (utf8 p.1, utf8 p.2))) "state"
      = utf8 state
    ∧ ParsedValues.Get ((authPairs c state).map (fun p => (utf8 p.1, utf8 p.2))) "response_type"
      = utf8 "code"
    ∧ ParsedValues.Get ((authPairs c state).map (fun p => (utf8 p.1, utf8 p.2))) "client_id"
      = utf8 c.ClientID
    ∧ ParsedValues.Get ((authPairs c state).map (fun p => (utf8 p.1, utf8 p.2))) "redirect_uri"
      = utf8 c.RedirectURL
    ∧ ParsedValues.Get ((authPairs c state).map (fun p => (utf8 p.1, utf8 p.2))) "scope"
      = utf8 (" ".intercalate c.Scopes)
    ∧ ParsedValues.Has ((authPairs c state).map (fun p => (utf8 p.1, utf8 p.2))) "state"
      = decide (state ≠ "")
    ∧ ParsedValues.Has ((authPairs c state).map (fun p => (utf8 p.1, utf8 p.2))) "response_type"
      = true
    ∧ ParsedValues.Has ((authPairs c state).map (fun p => (utf8 p.1, utf8 p.2))) "client_id"
      = true
    ∧ ParsedValues.Has ((authPairs c state).map (fun p => (utf8 p.1, utf8 p.2))) "redirect_uri"
      = decide (c.RedirectURL ≠ "")
    ∧ ParsedValues.Has ((authPairs c state).map (fun p => (utf8 p.1, utf8 p.2))) "scope"
      = decide (c.Scopes ≠ []) := by
  obtain ⟨k1, k2, k3, k4, k5, k6⟩ := utf8_keys
  have hs : ¬ c.Scopes.length > 0 → utf8 (" ".intercalate c.Scopes) = [] := by
    intro h
    have : c.Scopes = [] := List.length_eq_zero.mp (by omega)
    rw [this]
    exact k6
  have hn : c.Scopes.length > 0 ↔ c.Scopes ≠ [] := by
    cases c.Scopes <;> simp
  by_cases h1 : c.RedirectURL = "" <;> by_cases h2 : c.Scopes.length > 0 <;>
    by_cases h3 : state = "" <;>
    simp +decide [authPairs, ParsedValues.Get, ParsedValues.Has, h1, h2, h3, k1, k2, k3, k4, k5,
      k6, hs, hn.mp, (not_congr hn).mp]

theorem cutAt_append_of_mem (sep : Char) (a b : List Char) (h : sep ∈ a) :
    cutAt sep (a ++ b) = ((cutAt sep a).1, (cutAt sep a).2 ++ b) := by
  induction a with
  | nil => simp at h
  | cons c a ih =>
    by_cases hc : c = sep
    · simp [cutAt, hc]
    · have ha : sep ∈ a := by
        rcases List.mem_cons.mp h with h | h
        · exact absurd h.symm hc
        · exact h
      simp [cutAt, hc, ih ha]

theorem authSeparator_toList (c : OAuth2Config) :
    (authSeparator c).toList = [if '?' ∈ c.Endpoint.AuthURL.toList then '&' else '?'] := by
  unfold authSeparator
  split <;> rfl

theorem encodePairs_authPairs_ne_nil (c : OAuth2Config) (state : String) :
    encodePairs (authPairs c state) ≠ [] := by
  have h : ∃ rest, authPairs c state = ("client_id", c.ClientID) :: rest := by
    simp [authPairs]
  obtain ⟨rest, hr⟩ := h
  rw [hr]
  cases rest with
  | nil => rw [encodePairs_single]; simp
  | cons q rest => rw [encodePairs_cons_cons]; simp

theorem ParsedValues_Get_append (a b : ParsedValues) (key : String) (h : a.Has key = false) :
    ParsedValues.Get (a ++ b) key = b.Get key := by
  have hn : a.find? (fun kv => decide (kv.1 = utf8 key)) = none := by
    rw [List.find?_eq_none]
    intro x hx
    simp only [ParsedValues.Has, List.any_eq_false] at h
    exact h x hx
  simp [ParsedValues.Get, hn]

/-- Parsing the text written for key-value pairs after other pieces adds the
bytes of the pairs and keeps the error. -/
theorem parseQueryLoop_encodePairs_err (ps : List (String × String)) :
    ∀ (m : ParsedValues) (err : Option LibError),
      parseQueryLoop (splitAmp (encodePairs ps)) m err
        = (m ++ ps.map (fun p => (utf8 p.1, utf8 p.2)), err) := by
  induction ps with
  | nil =>
    intro m err
    simp [encodePairs, splitAmp, parseQueryLoop]
  | cons p rest ih =>
    intro m err
    cases rest with
    | nil =>
      rw [encodePairs_single, splitAmp_not_mem _ (encoded_pair_no_amp p.1 p.2),
        parseQueryLoop_encoded]
      simp [parseQueryLoop]
    | cons q rest =>
      rw [encodePairs_cons_cons, splitAmp_append _ _ (encoded_pair_no_amp p.1 p.2),
        parseQueryLoop_encoded, ih]
      simp

/-! ## Parsing the authorization URL -/

theorem getSchemeFrom_append (sep : Char) (q : List Char) (hsep : sep = '?' ∨ sep = '&') :
    ∀ (rem seen raw : List Char),
      getSchemeFrom (raw ++ sep :: q) seen (rem ++ sep :: q)
        = (getSchemeFrom raw seen rem).map (fun p => (p.1, p.2 ++ sep :: q)) := by
  intro rem
  induction rem with
  | nil =>
    intro seen raw
    have h1 : sep.isAlpha = false := by rcases hsep with h | h <;> rw [h] <;> decide
    have h2 : ¬ (sep.isDigit = true ∨ sep = '+' ∨ sep = '-' ∨ sep = '.') := by
      rcases hsep with h | h <;> rw [h] <;> decide
    have h3 : sep ≠ ':' := by rcases hsep with h | h <;> rw [h] <;> decide
    simp [getSchemeFrom, h1, h2, h3, Except.map]
  | cons c cs ih =>
    intro seen raw
    simp only [List.cons_append, getSchemeFrom]
    by_cases ha : c.isAlpha = true
    · simp only [ha, if_true]
      exact ih _ _
    · simp only [ha, if_false]
      by_cases hd : (c.isDigit = true ∨ c = '+' ∨ c = '-' ∨ c = '.')
      · simp only [hd, if_true]
        by_cases hs : seen = []
        · simp [hs, Except.map]
        · simp only [hs, if_false]
          exact ih _ _
      · simp only [hd, if_false]
        by_cases hc : c = ':'
        · by_cases hs : seen = [] <;> simp [hc, hs, Except.map]
        · simp [hc, Except.map]

theorem getScheme_append (sep : Char) (q : List Char) (hsep : sep = '?' ∨ sep = '&')
    (a : List Char) :
    getScheme (a ++ sep :: q) = (getScheme a).map (fun p => (p.1, p.2 ++ sep :: q)) :=
  getSchemeFrom_append sep q hsep a [] a

/-- What `getScheme` leaves after the scheme is all of the URL, or what follows
a colon that no `?` precedes. -/
theorem getSchemeFrom_rest (raw : List Char) :
    ∀ (rem seen scheme rest : List Char),
      getSchemeFrom raw seen rem = .ok (scheme, rest) →
      rest = raw ∨ ∃ pre, rem = pre ++ ':' :: rest ∧ '?' ∉ pre := by
  intro rem
  induction rem with
  | nil =>
    intro seen scheme rest h
    simp only [getSchemeFrom, Except.ok.injEq, Prod.mk.injEq] at h
    exact Or.inl h.2.symm
  | cons c cs ih =>
    intro seen scheme rest h
    have hstep : ∀ seen', getSchemeFrom raw seen' cs = .ok (scheme, rest) → c ≠ '?' →
        rest = raw ∨ ∃ pre, c :: cs = pre ++ ':' :: rest ∧ '?' ∉ pre := by
      intro seen' h' hc
      rcases ih seen' scheme rest h' with h1 | ⟨pre, hp, hn⟩
      · exact Or.inl h1
      · refine Or.inr ⟨c :: pre, by rw [hp]; rfl, ?_⟩
        intro hm
        rcases List.mem_cons.mp hm with hm | hm
        · exact hc hm.symm
        · exact hn hm
    simp only [getSchemeFrom] at h
    by_cases ha : c.isAlpha = true
    · simp only [ha, if_true] at h
      exact hstep _ h (by rintro rfl; revert ha; decide)
    · simp only [ha, if_false] at h
      by_cases hd : (c.isDigit = true ∨ c = '+' ∨ c = '-' ∨ c = '.')
      · simp only [hd, if_true] at h
        by_cases hs : seen = []
        · simp [hs] at h
          exact Or.inl h.2.symm
        · simp only [hs, if_false] at h
          exact hstep _ h (by rintro rfl; revert hd; decide)
      · simp only [hd, if_false] at h
        by_cases hc : c = ':'
        · by_cases hs : seen = []
          · simp [hc, hs] at h
          · simp [hc, hs] at h
            refine Or.inr ⟨[], ?_, by simp⟩
            rw [hc, h.2]
            rfl
        · simp [hc] at h
          exact Or.inl h.2.symm

theorem getScheme_rest_mem (a scheme rest : List Char) (h : getScheme a = .ok (scheme, rest)) :
    ('?' ∈ rest ↔ '?' ∈ a) ∧ ('#' ∈ rest → '#' ∈ a) := by
  rcases getSchemeFrom_rest a a [] scheme rest h with h1 | ⟨pre, hp, hn⟩
  · rw [h1]
    exact ⟨Iff.rfl, id⟩
  · rw [hp]
    constructor
    · constructor
      · intro hm
        simp [hm]
      · intro hm
        simp only [List.mem_append, List.mem_cons] at hm
        rcases hm with hm | hm | hm
        · exact absurd hm hn
        · exact absurd hm (by decide)
        · exact hm
    · intro hm
      simp [hm]

theorem queryChar_not_ctl (c : Char) (h : queryChar c = true) :
    ¬ (c.toNat < 0x20 ∨ c.toNat = 0x7f) := by
  simp only [queryChar, Bool.or_eq_true, decide_eq_true_eq, Char.isAlphanum, Char.isAlpha,
    Char.isUpper, Char.isLower, Char.isDigit, Bool.and_eq_true, UInt32.le_def,
    BitVec.le_def] at h
  have e1 : (UInt32.toBitVec 65).toNat = 65 := rfl
  have e2 : (UInt32.toBitVec 90).toNat = 90 := rfl
  have e3 : (UInt32.toBitVec 97).toNat = 97 := rfl
  have e4 : (UInt32.toBitVec 122).toNat = 122 := rfl
  have e5 : (UInt32.toBitVec 48).toNat = 48 := rfl
  have e6 : (UInt32.toBitVec 57).toNat = 57 := rfl
  rw [e1, e2, e3, e4, e5, e6] at h
  have hn : c.toNat = c.val.toBitVec.toNat := rfl
  rw [hn]
  rcases h with (((((((((h | h) | h) | h) | h) | h) | h) | h) | h) | h)
  · omega
  · omega
  all_goals (rw [h]; decide)

theorem stringContainsCTLByte_append (a q : List Char) (sep : Char)
    (hsep : sep = '?' ∨ sep = '&') (hq : ∀ c ∈ q, queryChar c = true) :
    stringContainsCTLByte (a ++ sep :: q) = stringContainsCTLByte a := by
  have h1 : (decide (sep.toNat < 0x20 ∨ sep.toNat = 0x7f)) = false := by
    rcases hsep with h | h <;> rw [h] <;> decide
  have h2 : q.any (fun c => decide (c.toNat < 0x20 ∨ c.toNat = 0x7f)) = false := by
    rw [List.any_eq_false]
    intro c hc
    simpa using queryChar_not_ctl c (hq c hc)
  simp only [stringContainsCTLByte, List.any_append, List.any_cons, h1, h2, Bool.or_false]

theorem cutAt_of_last_single :
    ∀ rest : List Char, rest.getLast? = some '?' → rest.count '?' = 1 →
      cutAt '?' rest = (rest.dropLast, [])
  | [], h, _ => by simp at h
  | [c], h, _ => by
    have hc : c = '?' := by simpa using h
    simp [cutAt, hc]
  | c :: d :: ds, h, hcount => by
    have hlast : (d :: ds).getLast? = some '?' := by simpa using h
    have hmem : '?' ∈ d :: ds := List.mem_of_getLast?_eq_some hlast
    have hc : c ≠ '?' := by
      intro hc
      rw [hc, List.count_cons_self] at hcount
      have h0 : (d :: ds).count '?' = 0 := by omega
      exact (List.count_eq_zero.mp h0) hmem
    have hcount' : (d :: ds).count '?' = 1 := by
      rw [List.count_cons_of_ne (Ne.symm hc)] at hcount
      exact hcount
    have ih := cutAt_of_last_single (d :: ds) hlast hcount'
    rw [cutAt, if_neg hc, ih]
    simp

theorem cutQuery_parts (rest : List Char) :
    (cutQuery rest).1 = (cutAt '?' rest).1 ∧ (cutQuery rest).2.2 = (cutAt '?' rest).2 := by
  unfold cutQuery
  by_cases h : rest.getLast? = some '?' ∧ rest.count '?' = 1
  · rw [if_pos h, cutAt_of_last_single rest h.1 h.2]
    exact ⟨rfl, rfl⟩
  · rw [if_neg h]
    exact ⟨rfl, rfl⟩

theorem cutQuery_of_last (rest : List Char) (h : rest.getLast? ≠ some '?') :
    cutQuery rest = ((cutAt '?' rest).1, false, (cutAt '?' rest).2) := by
  unfold cutQuery
  rw [if_neg (fun hh => h hh.1)]

/-- The query cut of the text before the query of the login URL: the text
before the query is the endpoint's, and the raw query is the endpoint's own,
an ampersand and the appended query, or the appended query alone when the
endpoint has none. -/
theorem cutQuery_login (rest q : List Char) (hq : ∀ c ∈ q, queryChar c = true)
    (hqne : q ≠ []) :
    cutQuery (rest ++ (if '?' ∈ rest then '&' else '?') :: q)
      = ((cutQuery rest).1, false,
         if '?' ∈ rest then (cutQuery rest).2.2 ++ '&' :: q else q)
    ∧ ('?' ∉ rest → (cutQuery rest).2.2 = []) := by
  have hq2 : '?' ∉ q := fun h => (queryChar_ne _ (hq _ h)).2 rfl
  obtain ⟨p1, p2⟩ := cutQuery_parts rest
  have hlast : ∀ sep : Char, (rest ++ sep :: q).getLast? ≠ some '?' := by
    intro sep hl
    have : q.getLast? = some '?' := by
      cases hql : q.getLast? with
      | none => exact absurd (List.getLast?_eq_none_iff.mp hql) hqne
      | some x =>
        rw [List.getLast?_append, List.getLast?_cons, hql] at hl
        simpa using hl
    exact hq2 (List.mem_of_getLast?_eq_some this)
  by_cases hm : '?' ∈ rest
  · simp only [hm, if_true, not_true_eq_false, false_implies, and_true]
    rw [cutQuery_of_last _ (hlast '&'), cutAt_append_of_mem '?' _ _ hm, p1, p2]
  · simp only [hm, if_false, not_false_eq_true, true_implies]
    rw [cutQuery_of_last _ (hlast '?'), cutAt_append '?' _ _ hm, p1, p2,
      cutAt_not_mem '?' _ hm]
    exact ⟨rfl, rfl⟩

/-- Parsing the login URL without its fragment cut: whenever the endpoint is
accepted, so is the endpoint followed by the separator and the query, with the
endpoint's scheme and (but for the lone asterisk) the endpoint's authority and
path, and with the raw query described by `cutQuery_login`. -/
theorem parse_login (lib : URLLib) (a q : List Char) (hq : ∀ c ∈ q, queryChar c = true)
    (hqne : q ≠ []) (u0 : URL) (h : parse lib a = .ok u0) :
    ∃ u, parse lib (a ++ (if '?' ∈ a then '&' else '?') :: q) = .ok u
      ∧ u.Scheme = u0.Scheme ∧ (a ≠ ['*'] → u.Hier = u0.Hier)
      ∧ u.ForceQuery = false ∧ u.Fragment = []
      ∧ u.RawQuery = String.mk (if '?' ∈ a then u0.RawQuery.toList ++ '&' :: q else q)
      ∧ ('?' ∉ a → u0.RawQuery = "") := by
  have hsep : (if '?' ∈ a then '&' else '?') = '?' ∨ (if '?' ∈ a then '&' else '?') = '&' := by
    by_cases hm : '?' ∈ a
    · exact Or.inr (if_pos hm)
    · exact Or.inl (if_neg hm)
  have hctl := stringContainsCTLByte_append a q _ hsep hq
  have hlen : a ++ (if '?' ∈ a then '&' else '?') :: q ≠ ['*'] := by
    intro he
    have := congrArg List.length he
    cases q with
    | nil => exact hqne rfl
    | cons x xs =>
      simp only [List.length_append, List.length_cons, List.length_nil] at this
      omega
  unfold parse at h ⊢
  rw [hctl]
  by_cases hc : stringContainsCTLByte a = true
  · rw [if_pos hc] at h
    simp at h
  · rw [if_neg hc] at h ⊢
    rw [if_neg hlen]
    by_cases hstar : a = ['*']
    · subst hstar
      rw [if_pos rfl] at h
      obtain ⟨hier, hh⟩ := lib.star
      have hm : '?' ∉ (['*'] : List Char) := by decide
      have hcut := (cutQuery_login ['*'] q hq hqne).1
      rw [if_neg hm] at hcut ⊢
      have hg : getScheme (['*'] ++ '?' :: q) = .ok ([], ['*'] ++ '?' :: q) := by
        simp [getScheme, getSchemeFrom]
      have h1 : (cutQuery ['*']).1 = ['*'] := by decide
      rw [hg]
      simp only [hcut, h1, List.map_nil]
      have hh' : lib.parseRest (String.mk []) (String.mk ['*']) = .ok hier := hh
      rw [hh']
      simp only [Except.ok.injEq] at h
      subst h
      exact ⟨_, rfl, rfl, fun hne => absurd rfl hne, rfl, rfl, by simp, fun _ => rfl⟩
    · rw [if_neg hstar] at h
      rw [getScheme_append _ q hsep a]
      cases hg : getScheme a with
      | error err => rw [hg] at h; simp at h
      | ok p =>
        obtain ⟨scheme, rest⟩ := p
        rw [hg] at h
        have hmem := (getScheme_rest_mem a scheme rest hg).1
        have hsame : (if '?' ∈ a then '&' else '?') = (if '?' ∈ rest then '&' else '?') := by
          by_cases hm : '?' ∈ a
          · rw [if_pos hm, if_pos (hmem.mpr hm)]
          · rw [if_neg hm, if_neg (fun hr => hm (hmem.mp hr))]
        obtain ⟨hcut, hnone⟩ := cutQuery_login rest q hq hqne
        simp only [Except.map, hsame, hcut] at h ⊢
        cases hp : lib.parseRest (String.mk (scheme.map Char.toLower))
            (String.mk (cutQuery rest).1) with
        | error err => rw [hp] at h; simp at h
        | ok hier =>
          rw [hp] at h
          simp only [Except.ok.injEq] at h
          subst h
          refine ⟨_, rfl, rfl, fun _ => rfl, rfl, rfl, ?_, ?_⟩
          · by_cases hm : '?' ∈ a
            · simp [hm, hmem.mpr hm]
            · have hr : '?' ∉ rest := fun hr => hm (hmem.mp hr)
              simp [hm, hr]
          · intro hm
            have := hnone (fun hr => hm (hmem.mp hr))
            simp [this]

theorem ParseList_of_no_fragment (lib : URLLib) (a : List Char) (h : '#' ∉ a) :
    ParseList lib a = parse lib a := by
  unfold ParseList
  rw [cutAt_not_mem '#' a h]
  cases parse lib a <;> simp

/-- The query of a URL whose raw query is a query, an ampersand and the text
written for key-value pairs: the values of the first followed by the bytes of
the pairs, and the error of the first. -/
theorem ParseQuery_join_encodePairs (own : List Char) (ps : List (String × String)) :
    ParseQuery (String.mk (own ++ '&' :: encodePairs ps))
      = ((ParseQuery (String.mk own)).1 ++ ps.map (fun p => (utf8 p.1, utf8 p.2)),
         (ParseQuery (String.mk own)).2) := by
  simp only [ParseQuery, String.toList]
  rw [splitAmp_join, parseQueryLoop_append, parseQueryLoop_encodePairs_err]

theorem ParseQuery_encodePairs (ps : List (String × String)) :
    ParseQuery (String.mk (encodePairs ps)) = (ps.map (fun p => (utf8 p.1, utf8 p.2)), none) := by
  have := parseQueryLoop_encodePairs_err ps [] none
  simpa [ParseQuery] using this

/-- Parsing the login URL of a configuration whose endpoint has no fragment:
whenever `url.Parse` accepts the endpoint it accepts the login URL, with the
endpoint's scheme, authority and path, no fragment, and a query whose parsed
values are the endpoint's own followed by the written pairs. -/
theorem Parse_AuthCodeURL (lib : URLLib) (c : OAuth2Config) (state : String) (endpoint : URL)
    (hparse : Parse lib c.Endpoint.AuthURL = .ok endpoint)
    (hfrag : '#' ∉ c.Endpoint.AuthURL.toList) :
    ∃ login, Parse lib (c.AuthCodeURL state) = .ok login
      ∧ login.Scheme = endpoint.Scheme
      ∧ (c.Endpoint.AuthURL ≠ "*" → login.Hier = endpoint.Hier)
      ∧ login.Fragment = []
      ∧ ParseQuery login.RawQuery
          = ((ParseQuery endpoint.RawQuery).1
              ++ (authPairs c state).map (fun p => (utf8 p.1, utf8 p.2)),
             (ParseQuery endpoint.RawQuery).2) := by
  have hq := encodePairs_chars (authPairs c state)
  have hqne := encodePairs_authPairs_ne_nil c state
  have h0 : parse lib c.Endpoint.AuthURL.toList = .ok endpoint := by
    rw [← ParseList_of_no_fragment lib _ hfrag]
    exact hparse
  obtain ⟨u, hu, hs, hh, -, hf, hr, hnone⟩ :=
    parse_login lib c.Endpoint.AuthURL.toList _ hq hqne endpoint h0
  have hlist : (c.AuthCodeURL state).toList
      = c.Endpoint.AuthURL.toList
          ++ (if '?' ∈ c.Endpoint.AuthURL.toList then '&' else '?')
            :: encodePairs (authPairs c state) := by
    rw [AuthCodeURL_eq]
    simp only [String.toList, String.data_append]
    have := authSeparator_toList c
    simp only [String.toList] at this
    rw [this]
    simp
  have hall : '#' ∉ (c.AuthCodeURL state).toList := by
    rw [hlist]
    simp only [List.mem_append, List.mem_cons, not_or]
    refine ⟨hfrag, ?_, fun h => (queryChar_ne _ (hq _ h)).1 rfl⟩
    split <;> decide
  refine ⟨u, ?_, hs, ?_, hf, ?_⟩
  · unfold Parse
    rw [ParseList_of_no_fragment lib _ hall, hlist]
    exact hu
  · intro hne
    apply hh
    intro hl
    apply hne
    apply String.ext
    exact hl
  · rw [hr]
    by_cases hm : '?' ∈ c.Endpoint.AuthURL.toList
    · rw [if_pos hm]
      exact ParseQuery_join_encodePairs _ _
    · rw [if_neg hm, hnone hm, ParseQuery_encodePairs]
      simp [ParseQuery, splitAmp, parseQueryLoop]

/-- C5 (as the code has it) : for every state and every client whose configured
authorization endpoint `url.Parse` accepts, has no `#`, and has in its own
query none of the parameters `state`, `response_type`, `client_id`,
`redirect_uri`, `scope`: `url.Parse` accepts the string `GenerateLoginURL`
returns, as a URL with the endpoint's scheme, with the endpoint's authority and
path (unless the endpoint is the lone asterisk) and without fragment; in its
query `state` decodes to exactly the bytes of the given state, `response_type`
is `code`, `client_id` is the configured client id, `redirect_uri` the
configured redirect URL and `scope` the configured scopes joined by spaces; and
the query parses with an error only if the endpoint's own query does. -/
theorem GenerateLoginURL_parses (lib : URLLib) (client : OpenIdClient) (state : String)
    (endpoint : URL)
    (hparse : Parse lib client.oAuth2Config.Endpoint.AuthURL = .ok endpoint)
    (hfrag : '#' ∉ client.oAuth2Config.Endpoint.AuthURL.toList)
    (hown : ∀ key ∈ authKeys, (ParseQuery endpoint.RawQuery).1.Has key = false) :
    ∃ login, Parse lib (GenerateLoginURL client state) = .ok login
      ∧ login.Scheme = endpoint.Scheme
      ∧ (client.oAuth2Config.Endpoint.AuthURL ≠ "*" → login.Hier = endpoint.Hier)
      ∧ login.Fragment = []
      ∧ login.QueryGet "state" = utf8 state
      ∧ login.QueryGet "response_type" = utf8 "code"
      ∧ login.QueryGet "client_id" = utf8 client.oAuth2Config.ClientID
      ∧ login.QueryGet "redirect_uri" = utf8 client.oAuth2Config.RedirectURL
      ∧ login.QueryGet "scope" = utf8 (" ".intercalate client.oAuth2Config.Scopes)
      ∧ (ParseQuery login.RawQuery).2 = (ParseQuery endpoint.RawQuery).2 := by
  obtain ⟨login, hl, hs, hh, hf, hquery⟩ :=
    Parse_AuthCodeURL lib client.oAuth2Config state endpoint hparse hfrag
  obtain ⟨g1, g2, g3, g4, g5, -⟩ := authPairs_Get client.oAuth2Config state
  have hget : ∀ key ∈ authKeys, login.QueryGet key
      = ParsedValues.Get
          ((authPairs client.oAuth2Config state).map (fun p => (utf8 p.1, utf8 p.2))) key := by
    intro key hk
    unfold URL.QueryGet
    rw [hquery]
    exact ParsedValues_Get_append _ _ key (hown key hk)
  refine ⟨login, hl, hs, hh, hf, ?_, ?_, ?_, ?_, ?_, ?_⟩
  · rw [hget "state" (by decide)]; exact g1
  · rw [hget "response_type" (by decide)]; exact g2
  · rw [hget "client_id" (by decide)]; exact g3
  · rw [hget "redirect_uri" (by decide)]; exact g4
  · rw [hget "scope" (by decide)]; exact g5
  · rw [hquery]

set_option maxRecDepth 1000000 in
theorem GenerateLoginURL_parses_witness :
    ∃ login,
      Parse exampleURLLib
          (GenerateLoginURL (clientWithEndpoint "https://idp.example/auth?tenant=t1") "a b&c")
        = .ok login
      ∧ login.Scheme = "https"
      ∧ login.Hier.Host = "idp.example" ∧ login.Hier.Path = "/auth"
      ∧ login.Fragment = []
      ∧ login.QueryGet "state" = utf8 "a b&c"
      ∧ login.QueryGet "response_type" = utf8 "code"
      ∧ login.QueryGet "client_id" = utf8 "client-1"
      ∧ login.QueryGet "redirect_uri" = utf8 "https://example.com/api/v1/login/google/callback"
      ∧ login.QueryGet "scope" = utf8 "openid email profile" := by
  obtain ⟨login, h1, h2, h3, h4, h5, h6, h7, h8, h9, -⟩ :=
    GenerateLoginURL_parses exampleURLLib
      (clientWithEndpoint "https://idp.example/auth?tenant=t1") "a b&c"
      { Scheme := "https"
        Hier := { Rootless := "", User := "", Host := "idp.example", Path := "/auth",
                  RawPath := "", OmitHost := false }
        ForceQuery := false, RawQuery := "tenant=t1", Fragment := [] }
      rfl (by decide) (by decide)
  have hh := h3 (by decide)
  exact ⟨login, h1, h2, by rw [hh], by rw [hh], h4, h5, h6, h7, h8, h9⟩

set_option maxRecDepth 1000000 in
/-- C5, counterexample : for the endpoint `https://idp.example/auth?state=fixed`
the `state` of the login URL for the state `xyz` decodes to `fixed`; for the
endpoint `https://idp.example/auth#frag` the login URL has an empty query, and
its `state` is empty; for an endpoint with a tab character `url.Parse` refuses
the login URL. -/
theorem GenerateLoginURL_state_not_embedded :
    (Parse exampleURLLib
        (GenerateLoginURL (clientWithEndpoint "https://idp.example/auth?state=fixed") "xyz")
      ).toOption.map (fun login => login.QueryGet "state") = some (utf8 "fixed")
    ∧ utf8 "fixed" ≠ utf8 "xyz"
    ∧ (Parse exampleURLLib
        (GenerateLoginURL (clientWithEndpoint "https://idp.example/auth#frag") "xyz")
      ).toOption.map (fun login => (login.RawQuery, login.QueryGet "state")) = some ("", [])
    ∧ utf8 "xyz" ≠ []
    ∧ (Parse exampleURLLib
        (GenerateLoginURL (clientWithEndpoint "https://idp.example/auth\t") "xyz")).toOption
      = none := by
  decide

set_option maxRecDepth 1000000 in
/-- The login URL of `exampleClient` for the state `a b&c`, and for the empty
state. -/
theorem GenerateLoginURL_example :
    GenerateLoginURL exampleClient "a b&c"
      = "https://idp.example/auth?client_id=client-1&redirect_uri=https%3A%2F%2Fexample.com%2Fapi%2Fv1%2Flogin%2Fgoogle%2Fcallback&response_type=code&scope=openid+email+profile&state=a+b%26c"
    ∧ GenerateLoginURL exampleClient ""
      = "https://idp.example/auth?client_id=client-1&redirect_uri=https%3A%2F%2Fexample.com%2Fapi%2Fv1%2Flogin%2Fgoogle%2Fcallback&response_type=code&scope=openid+email+profile" := by
  decide

end Barbra
